import Mathlib

/-!
# Verification of the SSDA_Website gallery API

Shallow embedding of `src/functions/api/[[path]].js` (Cloudflare Pages
function).  The API keeps image bytes in an R2 bucket (blob store) and
metadata in a KV namespace (key-value store).  Both stores are embedded as
association lists from string keys to values; per spec §5 they are treated
as durable and strongly available, so a `put` always takes effect and a
subsequent `get` observes it.

KV values in the source are JSON strings of exactly two shapes: arrays of
image-id strings (under `group:<label>` keys and the `gallery:index` key)
and image-metadata objects (under `image:<id>` keys).  The embedding stores
the parsed shapes directly (`KVVal.ids` / `KVVal.rcd`); `JSON.parse`
followed by array/object use is embedded as a shape match, and the
`TypeError` that JavaScript would raise when a value of the wrong shape is
used as an array is embedded as an `Except.error` (which the surrounding
`try/catch` turns into a status-500 response, exactly as in the source).

Handlers are written in explicit state-passing style: each takes the store
state and returns a `Response` (status plus the JSON payload fields the
claims observe) together with the updated state.  A thrown JS exception is
an `Except.error` threaded to the handler's `catch` wrapper.
-/

namespace SSDA

/-- An object held by the R2 blob store: its byte size and the content type
recorded at upload (`httpMetadata.contentType` in the source; the cache
directive carries no information relevant to any claim). -/
structure R2Obj where
  size : Nat
  contentType : String
deriving DecidableEq

/-- An image metadata record, as built by `handleUpload` (lines 435-443 of
the source).  `uploadedAt` is the upload timestamp; the source stores it as
an ISO-8601 string and compares such strings via `new Date(...)`
subtraction, which the embedding renders as the underlying millisecond
count. -/
structure ImageMeta where
  id : String
  fileName : String
  url : String
  group : String
  uploadedAt : Nat
  size : Nat
  type : String
deriving DecidableEq

/-- A parsed KV value: an array of image-id strings (group lists and the
gallery index) or an image metadata record. -/
inductive KVVal where
  | ids : List String → KVVal
  | rcd : ImageMeta → KVVal
deriving DecidableEq

/-- The combined state of the two external stores. -/
structure Stores where
  r2 : List (String × R2Obj)
  kv : List (String × KVVal)
deriving DecidableEq

/-- First-match association-list lookup (the `get` of either store). -/
def lookupA {α : Type} : List (String × α) → String → Option α
  | [], _ => none
  | p :: rest, k => if p.1 = k then some p.2 else lookupA rest k

/-- `put`: any previous entry for the key is replaced. -/
def putA {α : Type} (l : List (String × α)) (k : String) (v : α) :
    List (String × α) :=
  l.filter (fun p => p.1 ≠ k) ++ [(k, v)]

/-- `delete`: the key's entry is removed. -/
def delA {α : Type} (l : List (String × α)) (k : String) :
    List (String × α) :=
  l.filter (fun p => p.1 ≠ k)

theorem lookupA_putA {α : Type} (l : List (String × α)) (k k' : String)
    (v : α) :
    lookupA (putA l k v) k' = if k' = k then some v else lookupA l k' := by
  induction l with
  | nil =>
    simp only [putA, List.filter_nil, List.nil_append, lookupA]
    by_cases h : k' = k
    · subst h; simp
    · have h' : ¬ k = k' := fun hh => h hh.symm
      simp [h, h']
  | cons p rest ih =>
    by_cases hp : p.1 = k
    · have hstep : putA (p :: rest) k v = putA rest k v := by
        simp [putA, List.filter_cons, hp]
      rw [hstep, ih]
      by_cases h : k' = k
      · simp [h]
      · have hpk' : ¬ p.1 = k' := by rw [hp]; exact fun hh => h hh.symm
        simp [lookupA, hpk', h]
    · have hstep : putA (p :: rest) k v = p :: putA rest k v := by
        simp [putA, List.filter_cons, hp]
      rw [hstep]
      by_cases hq : p.1 = k'
      · have h' : ¬ k' = k := fun hh => hp (hq.trans hh)
        simp [lookupA, hq, h']
      · simp [lookupA, hq, ih]

theorem lookupA_delA {α : Type} (l : List (String × α)) (k k' : String) :
    lookupA (delA l k) k' = if k' = k then none else lookupA l k' := by
  induction l with
  | nil => simp [delA, lookupA]
  | cons p rest ih =>
    by_cases hp : p.1 = k
    · have hstep : delA (p :: rest) k = delA rest k := by
        simp [delA, List.filter_cons, hp]
      rw [hstep, ih]
      by_cases h : k' = k
      · simp [h]
      · have hpk' : ¬ p.1 = k' := by rw [hp]; exact fun hh => h hh.symm
        simp [lookupA, hpk', h]
    · have hstep : delA (p :: rest) k = p :: delA rest k := by
        simp [delA, List.filter_cons, hp]
      rw [hstep]
      by_cases hq : p.1 = k'
      · have h' : ¬ k' = k := fun hh => hp (hq.trans hh)
        simp [lookupA, hq, h']
      · simp [lookupA, hq, ih]

theorem lookupA_isSome_iff {α : Type} (l : List (String × α)) (k : String) :
    (lookupA l k).isSome ↔ k ∈ l.map Prod.fst := by
  induction l with
  | nil => simp [lookupA]
  | cons p rest ih =>
    by_cases h : p.1 = k
    · simp [lookupA, h]
    · have h' : ¬ k = p.1 := fun hh => h hh.symm
      simp [lookupA, h, h', ih]

/-! ## String helpers

`String.prototype.startsWith`, `substring`/`replace`-of-a-leading-pattern
and `split('.')` from the source are embedded over the character list of a
`String`. -/

/-- JS `p.startsWith(q)` on character lists. -/
def charsStart : List Char → List Char → Bool
  | [], _ => true
  | _ :: _, [] => false
  | a :: as, b :: bs => a = b && charsStart as bs

/-- JS `s.startsWith(p)`. -/
def strStarts (s p : String) : Bool :=
  charsStart p.data s.data

/-- JS `s.substring(n)` (and `s.replace(p, '')` when `p` is a leading
prefix of `s`, which replaces only that first occurrence). -/
def strDropN (s : String) (n : Nat) : String :=
  ⟨s.data.drop n⟩

theorem charsStart_append (p r : List Char) : charsStart p (p ++ r) = true := by
  induction p with
  | nil => rfl
  | cons a as ih => simp [charsStart, ih]

theorem charsStart_restore {p l : List Char} (h : charsStart p l = true) :
    p ++ l.drop p.length = l := by
  induction p generalizing l with
  | nil => simp
  | cons a as ih =>
    cases l with
    | nil => simp [charsStart] at h
    | cons b bs =>
      simp only [charsStart, Bool.and_eq_true, decide_eq_true_eq] at h
      simp [h.1, ih h.2]

theorem strStarts_append (p r : String) : strStarts (p ++ r) p = true := by
  simp [strStarts, charsStart_append]

theorem strStarts_restore {s p : String} (h : strStarts s p = true) :
    p ++ strDropN s p.data.length = s := by
  apply String.ext
  simpa [strDropN] using charsStart_restore (p := p.data) (l := s.data) h

/-- JS `s.split('.')` (splitting on a single-character separator). -/
def splitDot : List Char → List (List Char)
  | [] => [[]]
  | c :: rest =>
    if c = '.' then [] :: splitDot rest
    else
      match splitDot rest with
      | [] => [[c]]
      | h :: t => (c :: h) :: t

theorem splitDot_ne_nil (l : List Char) : splitDot l ≠ [] := by
  cases l with
  | nil => simp [splitDot]
  | cons c rest =>
    by_cases h : c = '.'
    · simp [splitDot, h]
    · simp only [splitDot, h, if_false]
      cases splitDot rest <;> simp

theorem splitDot_no_dot {l : List Char} (h : '.' ∉ l) : splitDot l = [l] := by
  induction l with
  | nil => rfl
  | cons c rest ih =>
    have hc : ¬ c = '.' := fun hh => h (hh ▸ List.mem_cons_self c rest)
    have hrest : '.' ∉ rest := fun hm => h (List.mem_cons_of_mem c hm)
    simp [splitDot, hc, ih hrest]

theorem splitDot_getLast_cons {c : Char} {l : List Char} (h : '.' ∈ l) :
    (splitDot (c :: l)).getLast? = (splitDot l).getLast? := by
  have h2 : 2 ≤ (splitDot l).length := by
    induction l with
    | nil => simp at h
    | cons b bs ih =>
      by_cases hb : b = '.'
      · have := splitDot_ne_nil bs
        simp only [splitDot, hb, if_true, List.length_cons]
        cases hsb : splitDot bs with
        | nil => exact absurd hsb this
        | cons x xs => simp
      · have hbs : '.' ∈ bs := by
          rcases List.mem_cons.mp h with h1 | h1
          · exact absurd h1.symm hb
          · exact h1
        have := ih hbs
        simp only [splitDot, hb, if_false]
        cases hsb : splitDot bs with
        | nil => exact absurd hsb (splitDot_ne_nil bs)
        | cons x xs =>
          rw [hsb] at this
          simpa using this
  by_cases hc : c = '.'
  · simp only [splitDot, hc, if_true]
    cases hsl : splitDot l with
    | nil => exact absurd hsl (splitDot_ne_nil l)
    | cons x xs => simp
  · simp only [splitDot, hc, if_false]
    cases hsl : splitDot l with
    | nil => exact absurd hsl (splitDot_ne_nil l)
    | cons x xs =>
      rw [hsl] at h2
      cases xs with
      | nil => simp at h2
      | cons y ys => simp

theorem splitDot_getLast_after_dot {l e : List Char} (he : '.' ∉ e) :
    (splitDot (l ++ '.' :: e)).getLast? = some e := by
  induction l with
  | nil =>
    simp only [List.nil_append, splitDot, if_true]
    rw [splitDot_no_dot he]
    simp
  | cons c cs ih =>
    have hmem : '.' ∈ cs ++ '.' :: e := by
      exact List.mem_append.mpr (Or.inr (List.mem_cons_self _ _))
    rw [List.cons_append, splitDot_getLast_cons hmem, ih]

/-! ## Disjointness of the KV key namespaces

The API writes KV keys of exactly three forms: `image:<id>`, `group:<label>`
and the fixed key `gallery:index`.  These never collide. -/

theorem imageKey_ne_indexKey (s : String) : "image:" ++ s ≠ "gallery:index" := by
  intro h
  have h2 : 'i' :: 'm' :: 'a' :: 'g' :: 'e' :: ':' :: s.data
      = 'g' :: 'a' :: 'l' :: 'l' :: 'e' :: 'r' :: 'y' :: ':'
        :: 'i' :: 'n' :: 'd' :: 'e' :: 'x' :: [] :=
    congrArg String.data h
  exact absurd (List.cons.inj h2).1 (by decide)

theorem groupKey_ne_indexKey (s : String) : "group:" ++ s ≠ "gallery:index" := by
  intro h
  have h2 : 'g' :: 'r' :: 'o' :: 'u' :: 'p' :: ':' :: s.data
      = 'g' :: 'a' :: 'l' :: 'l' :: 'e' :: 'r' :: 'y' :: ':'
        :: 'i' :: 'n' :: 'd' :: 'e' :: 'x' :: [] :=
    congrArg String.data h
  have h3 := (List.cons.inj h2).2
  exact absurd (List.cons.inj h3).1 (by decide)

theorem imageKey_ne_groupKey (s t : String) :
    "image:" ++ s ≠ "group:" ++ t := by
  intro h
  have h2 : 'i' :: 'm' :: 'a' :: 'g' :: 'e' :: ':' :: s.data
      = 'g' :: 'r' :: 'o' :: 'u' :: 'p' :: ':' :: t.data :=
    congrArg String.data h
  exact absurd (List.cons.inj h2).1 (by decide)

theorem imageKey_inj {s t : String} (h : "image:" ++ s = "image:" ++ t) :
    s = t := by
  have h2 : 'i' :: 'm' :: 'a' :: 'g' :: 'e' :: ':' :: s.data
      = 'i' :: 'm' :: 'a' :: 'g' :: 'e' :: ':' :: t.data :=
    congrArg String.data h
  apply String.ext
  simpa using h2

theorem groupKey_inj {s t : String} (h : "group:" ++ s = "group:" ++ t) :
    s = t := by
  have h2 : 'g' :: 'r' :: 'o' :: 'u' :: 'p' :: ':' :: s.data
      = 'g' :: 'r' :: 'o' :: 'u' :: 'p' :: ':' :: t.data :=
    congrArg String.data h
  apply String.ext
  simpa using h2

/-! ## Requests and responses -/

/-- The part of an HTTP response the claims observe: the status code, the
`Allow` header (set on 405 responses), and the JSON payload fields
(`images` for upload/gallery, the label array for groups). -/
structure Response where
  status : Nat
  images : List ImageMeta := []
  groups : List String := []
  allow : Option String := none
deriving DecidableEq

/-- A file payload of a multipart upload (a JS `File`/`Blob`).  `name = ""`
models a missing or empty filename (both falsy in JS), `type = ""` a
missing declared MIME type, and `size` the byte length of the body
(`arrayBuffer().byteLength`). -/
structure FilePayload where
  name : String
  type : String
  size : Nat
deriving DecidableEq

/-- An entry of `formData.getAll('images')`: a file-like object or a plain
string (JS form entries are exactly `File` or `string`; strings — and any
falsy entry — are skipped by the upload loop). -/
inductive FormEntry where
  | file : FilePayload → FormEntry
  | str : String → FormEntry
deriving DecidableEq

/-! ## Upload handler (`handleUpload`, source lines 276-503) -/

/-- The MIME-type → extension map of source lines 362-368. -/
def extMap : String → Option String
  | "image/jpeg" => some "jpg"
  | "image/png" => some "png"
  | "image/gif" => some "gif"
  | "image/webp" => some "webp"
  | "image/svg+xml" => some "svg"
  | _ => none

/-- `getContentTypeFromExtension` (source lines 506-517). -/
def getContentTypeFromExtension (ext : String) : String :=
  match ext.toLower with
  | "jpg" => "image/jpeg"
  | "jpeg" => "image/jpeg"
  | "png" => "image/png"
  | "gif" => "image/gif"
  | "webp" => "image/webp"
  | "svg" => "image/svg+xml"
  | "bmp" => "image/bmp"
  | _ => "image/jpeg"

/-- The file-extension derivation of source lines 357-370:
`name.split('.').pop() || 'jpg'` when the filename is truthy, else the
MIME map when the declared type is truthy, else `"jpg"`. -/
def fileExtensionOf (f : FilePayload) : String :=
  if f.name ≠ "" then
    match (splitDot f.name.data).getLast? with
    | some e => if e = [] then "jpg" else ⟨e⟩
    | none => "jpg"
  else if f.type ≠ "" then (extMap f.type).getD "jpg"
  else "jpg"

/-- The generated image id (source line 355):
`Date.now()`-`index`-`randomSuffix`; the clock value and the random suffix
are parameters of the embedding. -/
def imageIdGen (now : Nat) (rand : Nat → String) (i : Nat) : String :=
  toString now ++ "-" ++ toString i ++ "-" ++ rand i

/-- The derived R2 storage key (source lines 371-376). -/
def r2KeyOf (imageId : String) (f : FilePayload) : String :=
  let imageName := "image-" ++ imageId ++ "." ++ fileExtensionOf f
  if strStarts imageName "gallery-imagessda/" then imageName
  else "gallery-imagessda/" ++ imageName

/-- `formData.get('group') || 'Ungrouped'` (source line 300): an absent
field and an empty string are both falsy. -/
def groupOf : Option String → String
  | none => "Ungrouped"
  | some s => if s = "" then "Ungrouped" else s

/-- `x ? JSON.parse(x) : []` applied to a KV value expected to be an id
array (source lines 450, 459, 523).  A record-shaped value under such a key
cannot arise from this API's own writes; using it as an array would raise a
JS `TypeError`, embedded as an error. -/
def parseIdsOpt : Option KVVal → Except String (List String)
  | none => .ok []
  | some (.ids l) => .ok l
  | some (.rcd _) => .error "value is not an id array"

/-- The metadata record built for one uploaded file (source lines 355-443,
with the id, storage key, URL, content type and timestamp derivations
inlined). -/
def metaOf (now : Nat) (rand : Nat → String) (group : String) (i : Nat)
    (f : FilePayload) : ImageMeta :=
  let imageId := imageIdGen now rand i
  let r2Key := r2KeyOf imageId f
  { id := imageId
    fileName := r2Key
    url := "/api/image/" ++ r2Key
    group := group
    uploadedAt := now
    size := f.size
    type := if f.type = "" then getContentTypeFromExtension (fileExtensionOf f)
            else f.type }

/-- One iteration of the upload loop body for a file-like entry (source
lines 354-454): write the blob, re-read it and fail on a zero-size
readback, write the metadata record, then read-modify-write the group's id
list. -/
def processFile (now : Nat) (rand : Nat → String) (group : String) (i : Nat)
    (f : FilePayload) (st : Stores) : Except String ImageMeta × Stores :=
  let metadata := metaOf now rand group i f
  let st1 : Stores :=
    { st with r2 := putA st.r2 metadata.fileName ⟨f.size, metadata.type⟩ }
  match lookupA st1.r2 metadata.fileName with
  | none => (.error "Upload verification failed", st1)
  | some verify =>
    if verify.size = 0 then
      (.error "Upload verification failed - file size is 0", st1)
    else
      let st2 : Stores :=
        { st1 with kv := putA st1.kv ("image:" ++ metadata.id) (.rcd metadata) }
      match parseIdsOpt (lookupA st2.kv ("group:" ++ group)) with
      | .error e => (.error e, st2)
      | .ok groupImages =>
        (.ok metadata,
         { st2 with
            kv := putA st2.kv ("group:" ++ group)
                    (.ids (groupImages ++ [metadata.id])) })

/-- The upload loop (source lines 324-455): string (or otherwise non-file)
entries are skipped without advancing the success list but the loop index
`i` still advances; a thrown error aborts the remaining iterations. -/
def uploadLoop (now : Nat) (rand : Nat → String) (group : String) :
    List FormEntry → Nat → Stores → Except String (List ImageMeta) × Stores
  | [], _, st => (.ok [], st)
  | .str _ :: rest, i, st => uploadLoop now rand group rest (i + 1) st
  | .file f :: rest, i, st =>
    match processFile now rand group i f st with
    | (.error e, st1) => (.error e, st1)
    | (.ok m, st1) =>
      match uploadLoop now rand group rest (i + 1) st1 with
      | (.error e, st2) => (.error e, st2)
      | (.ok ms, st2) => (.ok (m :: ms), st2)

/-- `handleUpload` (source lines 276-503).  After the loop the gallery
index is read, each uploaded id not already present is appended, and the
index is written back; only then is the all-entries-skipped case answered
with a 400.  A thrown error is caught and answered with a 500. -/
def handleUpload (now : Nat) (rand : Nat → String)
    (groupField : Option String) (entries : List FormEntry) (st : Stores) :
    Response × Stores :=
  let group := groupOf groupField
  if entries.length = 0 then ({ status := 400 }, st)
  else
    match uploadLoop now rand group entries 0 st with
    | (.error _, st1) => ({ status := 500 }, st1)
    | (.ok uploadedImages, st1) =>
      match parseIdsOpt (lookupA st1.kv "gallery:index") with
      | .error _ => ({ status := 500 }, st1)
      | .ok index0 =>
        let index := uploadedImages.foldl
          (fun acc img => if acc.contains img.id then acc else acc ++ [img.id])
          index0
        let st2 : Stores :=
          { st1 with kv := putA st1.kv "gallery:index" (.ids index) }
        if uploadedImages.length = 0 then ({ status := 400 }, st2)
        else ({ status := 200, images := uploadedImages }, st2)

/-! ## Gallery, groups and delete handlers -/

/-- The hydration loop of `handleGetGallery` (source lines 525-535): each
index id is resolved to its `image:` record, missing records are silently
skipped, and the record's `url` is recomputed from its stored key.  A
non-record value under an `image:` key never arises from this API's writes
and is treated like a missing record. -/
def resolveImages (kv : List (String × KVVal)) : List String → List ImageMeta
  | [] => []
  | id :: rest =>
    match lookupA kv ("image:" ++ id) with
    | some (.rcd m) =>
      { m with url := "/api/image/" ++ m.fileName } :: resolveImages kv rest
    | _ => resolveImages kv rest

/-- The descending-by-upload-time comparator of source line 538
(`new Date(b.uploadedAt) - new Date(a.uploadedAt)` as a sort-lifted
boolean: `a` may stay before `b` iff `b`'s time is not larger). -/
def newestFirst (a b : ImageMeta) : Bool :=
  b.uploadedAt ≤ a.uploadedAt

/-- `handleGetGallery` (source lines 520-551).  The handler only reads;
iterating a non-array index value would raise in JS, answered by the catch
with a 500. -/
def handleGetGallery (st : Stores) : Response :=
  match parseIdsOpt (lookupA st.kv "gallery:index") with
  | .error _ => { status := 500 }
  | .ok index =>
    { status := 200
      images := (resolveImages st.kv index).mergeSort newestFirst }

/-- `handleGetGroups` (source lines 554-583): list the KV keys with prefix
`group:`, strip the prefix (JS `replace('group:', '')` replaces the first
occurrence, which for a listed key is the leading one), drop the empty and
the sentinel label, append `Ungrouped` iff its key holds an entry, and
sort. -/
def handleGetGroups (st : Stores) : Response :=
  let keys := (st.kv.map Prod.fst).filter (fun k => strStarts k "group:")
  let groups := (keys.map (fun k => strDropN k 6)).filter
    (fun g => !(g = "") && !(g = "Ungrouped"))
  let withUngrouped :=
    match lookupA st.kv "group:Ungrouped" with
    | some _ => groups ++ ["Ungrouped"]
    | none => groups
  { status := 200
    groups := withUngrouped.mergeSort (fun a b => a ≤ b) }

/-- The "remove from group" step of `handleDeleteImage` (source lines
605-616): when the group's list is stored, filter the id out and write the
list back, deleting the key instead when the filtered list is empty; when
the key is absent do nothing.  A record-shaped value would raise in JS
(`.filter` is not a function), embedded as an error. -/
def removeFromGroup (groupKey imageId : String) (st : Stores) :
    Except String Stores :=
  match lookupA st.kv groupKey with
  | some (.rcd _) => .error "value is not an id array"
  | some (.ids groupImages) =>
    let updatedGroup := groupImages.filter (fun id => !(id = imageId))
    if 0 < updatedGroup.length then
      .ok { st with kv := putA st.kv groupKey (.ids updatedGroup) }
    else
      .ok { st with kv := delA st.kv groupKey }
  | none => .ok st

/-- The "remove from index" step of `handleDeleteImage` (source lines
618-624): when the index is stored, filter the id out and write it back;
when absent do nothing. -/
def removeFromIndex (imageId : String) (st : Stores) : Except String Stores :=
  match lookupA st.kv "gallery:index" with
  | some (.rcd _) => .error "value is not an id array"
  | some (.ids index) =>
    .ok { st with
            kv := putA st.kv "gallery:index"
                    (.ids (index.filter (fun id => !(id = imageId)))) }
  | none => .ok st

/-- The group- and index-cleanup tail of `handleDeleteImage`, applied to
the state after the blob and record deletions; a raised error is caught
and answered with a 500, leaving the mutations made so far in place. -/
def deleteImageCore (imageId : String) (metadata : ImageMeta)
    (st2 : Stores) : Response × Stores :=
  match removeFromGroup ("group:" ++ metadata.group) imageId st2 with
  | .error _ => ({ status := 500 }, st2)
  | .ok st3 =>
    match removeFromIndex imageId st3 with
    | .error _ => ({ status := 500 }, st3)
    | .ok st4 => ({ status := 200 }, st4)

/-- `handleDeleteImage` (source lines 586-637): 404 when the record is
absent; otherwise delete the blob and the record, filter the id out of its
group's list (deleting the list's key when it empties), and filter it out
of the gallery index. -/
def handleDeleteImage (imageId : String) (st : Stores) : Response × Stores :=
  match lookupA st.kv ("image:" ++ imageId) with
  | none => ({ status := 404 }, st)
  | some (.ids _) =>
    -- a list value under an `image:` key never arises from this API's
    -- writes; using it as a record would raise in JS, answered with a 500
    ({ status := 500 }, st)
  | some (.rcd metadata) =>
    deleteImageCore imageId metadata
      ⟨delA st.r2 metadata.fileName, delA st.kv ("image:" ++ imageId)⟩

/-- The per-id loop of `handleDeleteGroup` (source lines 655-662): ids with
a record get their blob and record deleted; ids without one are skipped. -/
def deleteGroupLoop : List String → Stores → Except String Unit × Stores
  | [], st => (.ok (), st)
  | imageId :: rest, st =>
    match lookupA st.kv ("image:" ++ imageId) with
    | some (.rcd metadata) =>
      let st1 : Stores := { st with r2 := delA st.r2 metadata.fileName }
      let st2 : Stores :=
        { st1 with kv := delA st1.kv ("image:" ++ imageId) }
      deleteGroupLoop rest st2
    | some (.ids _) =>
      -- unreachable shape for an `image:` key; embedded as a raised error
      (.error "value is not an image record", st)
    | none => deleteGroupLoop rest st

/-- The batched index cleanup of `handleDeleteGroup` (source lines
667-673): when the index is stored, filter out every member of the group
and write it back; when absent do nothing. -/
def deleteGroupIndexStep (groupImages : List String) (st : Stores) :
    Except String Stores :=
  match lookupA st.kv "gallery:index" with
  | some (.rcd _) => .error "value is not an id array"
  | some (.ids index) =>
    .ok ⟨st.r2,
         putA st.kv "gallery:index"
           (.ids (index.filter (fun id => !(groupImages.contains id))))⟩
  | none => .ok st

/-- `handleDeleteGroup` (source lines 640-686): 404 when the group's list
is absent; otherwise delete each member's blob and record, delete the
group key, and filter all members out of the gallery index in one batch. -/
def handleDeleteGroup (groupName : String) (st : Stores) :
    Response × Stores :=
  match lookupA st.kv ("group:" ++ groupName) with
  | none => ({ status := 404 }, st)
  | some (.rcd _) => ({ status := 500 }, st)
  | some (.ids groupImages) =>
    match deleteGroupLoop groupImages st with
    | (.error _, st1) => ({ status := 500 }, st1)
    | (.ok _, st1) =>
      match deleteGroupIndexStep groupImages
          ⟨st1.r2, delA st1.kv ("group:" ++ groupName)⟩ with
      | .error _ =>
        ({ status := 500 }, ⟨st1.r2, delA st1.kv ("group:" ++ groupName)⟩)
      | .ok st3 => ({ status := 200 }, st3)

/-! ## Request router (`onRequest`, source lines 68-273)

The embedding models the dispatch decision of a configured deployment
(both store bindings present; with a binding missing the source answers
500 before routing).  The `/api/delete-group/` branch percent-decodes its
suffix with the JS builtin `decodeURIComponent` (lines 205 and 222)
inside the outer `try`, before both the 405 response and the dispatch: a
malformed suffix raises `URIError` and the catch at line 266 answers 500
with no `Allow` header and no handler.  The `/api/image/` branch decodes
its suffix inside a local `try` with a fall-back to the raw suffix
(lines 253-257), so no error escapes there. -/

/-- Value of a hex digit, as accepted by a JS percent escape (code points
48-57 are `0`-`9`, 65-70 are `A`-`F`, 97-102 are `a`-`f`). -/
def hexVal (c : Char) : Option Nat :=
  let n := c.toNat
  if 48 ≤ n ∧ n ≤ 57 then some (n - 48)
  else if 65 ≤ n ∧ n ≤ 70 then some (n - 55)
  else if 97 ≤ n ∧ n ≤ 102 then some (n - 87)
  else none

/-- A token of a percent-encoded string: an escaped octet `%XX` or a raw
character. -/
inductive PctTok where
  | byte : Nat → PctTok
  | raw : Char → PctTok
deriving DecidableEq

/-- Tokenize a percent-encoded string: each `%` must be followed by two
hex digits (else `URIError`); any other character is kept as itself. -/
def pctTokens : List Char → Option (List PctTok)
  | [] => some []
  | '%' :: h1 :: h2 :: rest =>
    match hexVal h1, hexVal h2 with
    | some a, some b =>
      match pctTokens rest with
      | some ts => some (.byte (16 * a + b) :: ts)
      | none => none
    | _, _ => none
  | ['%'] => none
  | ['%', _] => none
  | c :: rest =>
    match pctTokens rest with
    | some ts => some (.raw c :: ts)
    | none => none

/-- Decode the token stream: raw characters pass through; escaped octets
must form valid (shortest-form, non-surrogate, in-range) UTF-8 sequences
whose continuation octets are themselves escapes, as required of
`decodeURIComponent` (else `URIError`). -/
def decTokens : List PctTok → Option (List Char)
  | [] => some []
  | .raw c :: rest =>
    match decTokens rest with
    | some ds => some (c :: ds)
    | none => none
  | .byte b0 :: rest =>
    if b0 < 0x80 then
      match decTokens rest with
      | some ds => some (Char.ofNat b0 :: ds)
      | none => none
    else if 0xC2 ≤ b0 ∧ b0 ≤ 0xDF then
      match rest with
      | .byte b1 :: rest2 =>
        if 0x80 ≤ b1 ∧ b1 ≤ 0xBF then
          match decTokens rest2 with
          | some ds => some (Char.ofNat ((b0 - 0xC0) * 64 + (b1 - 0x80)) :: ds)
          | none => none
        else none
      | _ => none
    else if 0xE0 ≤ b0 ∧ b0 ≤ 0xEF then
      match rest with
      | .byte b1 :: .byte b2 :: rest2 =>
        if (0x80 ≤ b1 ∧ b1 ≤ 0xBF) ∧ (0x80 ≤ b2 ∧ b2 ≤ 0xBF) then
          let cp := (b0 - 0xE0) * 4096 + (b1 - 0x80) * 64 + (b2 - 0x80)
          if 0x800 ≤ cp ∧ ¬ (0xD800 ≤ cp ∧ cp ≤ 0xDFFF) then
            match decTokens rest2 with
            | some ds => some (Char.ofNat cp :: ds)
            | none => none
          else none
        else none
      | _ => none
    else if 0xF0 ≤ b0 ∧ b0 ≤ 0xF4 then
      match rest with
      | .byte b1 :: .byte b2 :: .byte b3 :: rest2 =>
        if (0x80 ≤ b1 ∧ b1 ≤ 0xBF) ∧ (0x80 ≤ b2 ∧ b2 ≤ 0xBF)
            ∧ (0x80 ≤ b3 ∧ b3 ≤ 0xBF) then
          let cp := (b0 - 0xF0) * 262144 + (b1 - 0x80) * 4096
            + (b2 - 0x80) * 64 + (b3 - 0x80)
          if 0x10000 ≤ cp ∧ cp ≤ 0x10FFFF then
            match decTokens rest2 with
            | some ds => some (Char.ofNat cp :: ds)
            | none => none
          else none
        else none
      | _ => none
    else none

/-- The JS builtin `decodeURIComponent` (a platform function, not
repository code): percent-escape parsing followed by strict UTF-8
decoding; `none` embeds a thrown `URIError`. -/
def decodeURIComponent (s : String) : Option String :=
  match pctTokens s.data with
  | none => none
  | some ts =>
    match decTokens ts with
    | none => none
    | some ds => some ⟨ds⟩

/-- The target a request is dispatched to. -/
inductive Handler where
  | upload
  | gallery
  | groups
  | deleteImage (imageId : String)
  | deleteGroup (groupName : String)
  | getImage (filename : String)
deriving DecidableEq

/-- The routing outcome: the unconditional CORS preflight answer, a
dispatch to exactly one handler, a 405 with the `Allow` method, a 404, or
the catch-all 500 for an error raised inside the router (carrying no
`Allow` header and reaching no handler). -/
inductive RouteResult where
  | preflight
  | dispatch (h : Handler)
  | methodNotAllowed (allow : String)
  | notFound
  | serverError
deriving DecidableEq

/-- The routing decision of `onRequest`: OPTIONS is answered first
(line 84); each known path checks the method and answers 405 otherwise;
the id / group-name / filename suffixes are recovered with
`replace(pre1, '')` / `substring`, which for a matched path drop the
leading pattern (`pre1` being the matched route pattern).  In the
delete-group branch the suffix is percent-decoded before either the 405
or the dispatch (lines 205/222; the source decodes inside each method
branch, but in both branches the decode precedes the response, so a
malformed suffix is answered 500 by the catch for every method).  The
image filename is cut at the first `?` (`split('?')[0]`) and then decoded
with a fall-back to the raw text. -/
def route (method path : String) : RouteResult :=
  if method = "OPTIONS" then .preflight
  else if path = "/api/upload" then
    if method ≠ "POST" then .methodNotAllowed "POST" else .dispatch .upload
  else if path = "/api/gallery" then
    if method ≠ "GET" then .methodNotAllowed "GET" else .dispatch .gallery
  else if path = "/api/groups" then
    if method ≠ "GET" then .methodNotAllowed "GET" else .dispatch .groups
  else if strStarts path "/api/delete/" then
    if method ≠ "DELETE" then .methodNotAllowed "DELETE"
    else .dispatch (.deleteImage (strDropN path 12))
  else if strStarts path "/api/delete-group/" then
    match decodeURIComponent (strDropN path 18) with
    | none => .serverError
    | some groupName =>
      if method ≠ "DELETE" then .methodNotAllowed "DELETE"
      else .dispatch (.deleteGroup groupName)
  else if strStarts path "/api/image/" then
    if method ≠ "GET" then .methodNotAllowed "GET"
    else
      .dispatch (.getImage (
        match decodeURIComponent
            ⟨((strDropN path 11).data.takeWhile (fun c => c ≠ '?'))⟩ with
        | some d => d
        | none => ⟨((strDropN path 11).data.takeWhile (fun c => c ≠ '?'))⟩))
  else .notFound

/-- Specification-side view of the route table: the supported method of
each of the six known endpoints, `none` for an unknown path. -/
def allowedMethod (path : String) : Option String :=
  if path = "/api/upload" then some "POST"
  else if path = "/api/gallery" then some "GET"
  else if path = "/api/groups" then some "GET"
  else if strStarts path "/api/delete/" then some "DELETE"
  else if strStarts path "/api/delete-group/" then some "DELETE"
  else if strStarts path "/api/image/" then some "GET"
  else none

/-! ## Observations on store states -/

/-- The id list held by an optional KV value (`[]` when absent or not an
array). -/
def idsValOf : Option KVVal → List String
  | some (.ids l) => l
  | _ => []

/-- The gallery index as a list (`[]` when the key is absent). -/
def idxOf (st : Stores) : List String :=
  idsValOf (lookupA st.kv "gallery:index")

/-- A group's id list (`[]` when the key is absent). -/
def grpListOf (st : Stores) (g : String) : List String :=
  idsValOf (lookupA st.kv ("group:" ++ g))

/-- The value under a list-valued key is absent or an id array (the only
shapes this API ever writes there). -/
def shapeIds : Option KVVal → Bool
  | some (.rcd _) => false
  | _ => true

/-- The value under an `image:` key is absent or a record. -/
def shapeRcd : Option KVVal → Bool
  | some (.ids _) => false
  | _ => true

theorem parseIdsOpt_of_shape {v : Option KVVal} (h : shapeIds v = true) :
    parseIdsOpt v = .ok (idsValOf v) := by
  cases v with
  | none => rfl
  | some w =>
    cases w with
    | ids l => rfl
    | rcd m => simp [shapeIds] at h

/-- The ids the upload loop generates for a batch of files starting at
loop index `i`. -/
def idsOf (now : Nat) (rand : Nat → String) : Nat → List FilePayload → List String
  | _, [] => []
  | i, _ :: rest => imageIdGen now rand i :: idsOf now rand (i + 1) rest

/-- The metadata records the upload loop creates for a batch of files
starting at loop index `i`. -/
def metasOf (now : Nat) (rand : Nat → String) (group : String) :
    Nat → List FilePayload → List ImageMeta
  | _, [] => []
  | i, f :: rest => metaOf now rand group i f :: metasOf now rand group (i + 1) rest

theorem idsOf_length (now : Nat) (rand : Nat → String) :
    ∀ (i : Nat) (fs : List FilePayload),
    (idsOf now rand i fs).length = fs.length := by
  intro i fs
  induction fs generalizing i with
  | nil => rfl
  | cons f rest ih => simp [idsOf, ih]

theorem metasOf_length (now : Nat) (rand : Nat → String) (group : String)
    (i : Nat) (fs : List FilePayload) :
    (metasOf now rand group i fs).length = fs.length := by
  induction fs generalizing i with
  | nil => rfl
  | cons f rest ih => simp [metasOf, ih]

theorem metasOf_group (now : Nat) (rand : Nat → String) (group : String)
    (i : Nat) (fs : List FilePayload) :
    ∀ m ∈ metasOf now rand group i fs, m.group = group := by
  induction fs generalizing i with
  | nil => intro m hm; simp [metasOf] at hm
  | cons f rest ih =>
    intro m hm
    rcases List.mem_cons.mp hm with h | h
    · subst h; rfl
    · exact ih (i + 1) m h

theorem metasOf_map_id (now : Nat) (rand : Nat → String) (group : String)
    (i : Nat) (fs : List FilePayload) :
    (metasOf now rand group i fs).map ImageMeta.id = idsOf now rand i fs := by
  induction fs generalizing i with
  | nil => rfl
  | cons f rest ih => simp [metasOf, idsOf, metaOf, imageIdGen, ih]

/-! ## Characterization of one upload-loop iteration -/

theorem processFile_ok (now : Nat) (rand : Nat → String) (group : String)
    (i : Nat) (f : FilePayload) (st : Stores) (hsz : 0 < f.size)
    (hgrp : shapeIds (lookupA st.kv ("group:" ++ group)) = true) :
    processFile now rand group i f st =
      (.ok (metaOf now rand group i f),
       { r2 := putA st.r2 (metaOf now rand group i f).fileName
                 ⟨f.size, (metaOf now rand group i f).type⟩
         kv := putA
                 (putA st.kv ("image:" ++ (metaOf now rand group i f).id)
                   (.rcd (metaOf now rand group i f)))
                 ("group:" ++ group)
                 (.ids (grpListOf st group ++ [(metaOf now rand group i f).id])) }) := by
  have hne : ¬ ("group:" ++ group) = ("image:" ++ (metaOf now rand group i f).id) :=
    fun h => imageKey_ne_groupKey _ _ h.symm
  have hsz' : ¬ f.size = 0 := Nat.pos_iff_ne_zero.mp hsz
  unfold processFile
  simp only [lookupA_putA, if_pos rfl, if_neg hne, if_neg hsz']
  unfold grpListOf
  cases hgv : lookupA st.kv ("group:" ++ group) with
  | none =>
    simp [parseIdsOpt, idsValOf]
    exact hsz'
  | some v =>
    cases v with
    | ids l =>
      simp [parseIdsOpt, idsValOf]
      exact hsz'
    | rcd m => rw [hgv] at hgrp; simp [shapeIds] at hgrp

/-- Characterization of a successful upload loop over a batch of file
entries with positive sizes: it returns the expected records, touches only
the batch's `image:` keys and the group key, appends the batch's ids to
the group list, and stores each record under its id. -/
theorem uploadLoop_ok (now : Nat) (rand : Nat → String) (group : String) :
    ∀ (fs : List FilePayload) (i : Nat) (st : Stores),
    (∀ f ∈ fs, 0 < f.size) →
    shapeIds (lookupA st.kv ("group:" ++ group)) = true →
    (idsOf now rand i fs).Nodup →
    ∃ st1 : Stores,
      uploadLoop now rand group (fs.map FormEntry.file) i st
        = (.ok (metasOf now rand group i fs), st1) ∧
      (∀ key : String, (∀ id ∈ idsOf now rand i fs, ¬ key = "image:" ++ id) →
        ¬ key = "group:" ++ group →
        lookupA st1.kv key = lookupA st.kv key) ∧
      shapeIds (lookupA st1.kv ("group:" ++ group)) = true ∧
      grpListOf st1 group = grpListOf st group ++ idsOf now rand i fs ∧
      (∀ m ∈ metasOf now rand group i fs,
        lookupA st1.kv ("image:" ++ m.id) = some (.rcd m)) := by
  intro fs
  induction fs with
  | nil =>
    intro i st _ _ _
    exact ⟨st, rfl, fun _ _ _ => rfl, by assumption, by simp [idsOf], by
      intro m hm; simp [metasOf] at hm⟩
  | cons f rest ih =>
    intro i st hsz hgrp hids
    have hszf : 0 < f.size := hsz f (List.mem_cons_self _ _)
    have hpf := processFile_ok now rand group i f st hszf hgrp
    set meta := metaOf now rand group i f with hmeta
    set stA : Stores :=
      { r2 := putA st.r2 meta.fileName ⟨f.size, meta.type⟩
        kv := putA (putA st.kv ("image:" ++ meta.id) (.rcd meta))
                ("group:" ++ group)
                (.ids (grpListOf st group ++ [meta.id])) } with hstA
    have hgrpA : lookupA stA.kv ("group:" ++ group)
        = some (.ids (grpListOf st group ++ [meta.id])) := by
      simp [hstA, lookupA_putA]
    have hidcons : idsOf now rand i (f :: rest)
        = meta.id :: idsOf now rand (i + 1) rest := rfl
    rw [hidcons] at hids
    have hidsrest : (idsOf now rand (i + 1) rest).Nodup :=
      (List.nodup_cons.mp hids).2
    have hidhead : meta.id ∉ idsOf now rand (i + 1) rest :=
      (List.nodup_cons.mp hids).1
    obtain ⟨st1, hloop, hpres, hshape1, hgl1, hrec1⟩ :=
      ih (i + 1) stA (fun g hg => hsz g (List.mem_cons_of_mem _ hg))
        (by rw [hgrpA]; rfl) hidsrest
    refine ⟨st1, ?_, ?_, hshape1, ?_, ?_⟩
    · show uploadLoop now rand group (FormEntry.file f :: rest.map FormEntry.file) i st = _
      rw [uploadLoop, hpf]
      simp only [hloop]
      rfl
    · intro key hkimg hkgrp
      have h1 : lookupA st1.kv key = lookupA stA.kv key := by
        apply hpres key _ hkgrp
        intro id hid
        exact hkimg id (by rw [hidcons]; exact List.mem_cons_of_mem _ hid)
      rw [h1]
      have hkhead : ¬ key = "image:" ++ meta.id :=
        hkimg meta.id (by rw [hidcons]; exact List.mem_cons_self _ _)
      simp [hstA, lookupA_putA, if_neg hkgrp, if_neg hkhead]
    · have hglA : grpListOf stA group = grpListOf st group ++ [meta.id] := by
        unfold grpListOf
        rw [hgrpA]
        rfl
      rw [hgl1, hglA, hidcons, List.append_assoc]
      rfl
    · intro m hm
      have hmcons : metasOf now rand group i (f :: rest)
          = meta :: metasOf now rand group (i + 1) rest := rfl
      rw [hmcons] at hm
      rcases List.mem_cons.mp hm with h | h
      · subst h
        have h1 : lookupA st1.kv ("image:" ++ meta.id)
            = lookupA stA.kv ("image:" ++ meta.id) := by
          apply hpres
          · intro id hid
            intro he
            exact hidhead (imageKey_inj he ▸ hid)
          · exact imageKey_ne_groupKey meta.id group
        rw [h1]
        have hne : ¬ ("image:" ++ meta.id) = ("group:" ++ group) :=
          imageKey_ne_groupKey meta.id group
        simp [hstA, lookupA_putA, if_neg hne]
      · exact hrec1 m h

/-- The index-update fold of `handleUpload` (source lines 460-464) appends
every uploaded id when none of them is already present and they are
pairwise distinct. -/
theorem foldl_pushUnique (ms : List ImageMeta) :
    ∀ acc : List String,
    (∀ m ∈ ms, m.id ∉ acc) → (ms.map ImageMeta.id).Nodup →
    ms.foldl (fun acc img => if acc.contains img.id then acc else acc ++ [img.id]) acc
      = acc ++ ms.map ImageMeta.id := by
  induction ms with
  | nil => intro acc _ _; simp
  | cons m rest ih =>
    intro acc hfresh hnd
    have hm : m.id ∉ acc := hfresh m (List.mem_cons_self _ _)
    have hc : acc.contains m.id = false := by
      simp [List.contains, hm]
    have hfresh2 : ∀ m' ∈ rest, m'.id ∉ acc ++ [m.id] := by
      intro m' hm' hmem
      rcases List.mem_append.mp hmem with h | h
      · exact hfresh m' (List.mem_cons_of_mem _ hm') h
      · have hid : m'.id = m.id := by simpa using h
        have : m.id ∈ rest.map ImageMeta.id :=
          hid ▸ List.mem_map_of_mem ImageMeta.id hm'
        exact (List.nodup_cons.mp (by simpa using hnd)).1 this
    have hnd2 : (rest.map ImageMeta.id).Nodup :=
      (List.nodup_cons.mp (by simpa using hnd)).2
    simp only [List.foldl_cons, hc]
    rw [if_neg (by simp)]
    rw [ih (acc ++ [m.id]) hfresh2 hnd2]
    simp

/-- C1: uploading N valid file payloads with (defaulted) group label G
creates exactly N new image records, each with group G, and grows the
gallery index by exactly N ids.  Validity of a payload comprises being
file-like with a non-empty body (an empty body fails upload verification),
and — as the source generates ids probabilistically without a uniqueness
check — the generated ids being pairwise distinct and fresh. -/
theorem claim_C1_upload_creates_records
    (now : Nat) (rand : Nat → String) (groupField : Option String)
    (fs : List FilePayload) (st : Stores)
    (hne : fs ≠ [])
    (hsz : ∀ f ∈ fs, 0 < f.size)
    (hids : (idsOf now rand 0 fs).Nodup)
    (hfresh : ∀ id ∈ idsOf now rand 0 fs, lookupA st.kv ("image:" ++ id) = none)
    (hfidx : ∀ id ∈ idsOf now rand 0 fs, id ∉ idxOf st)
    (hgrp : shapeIds (lookupA st.kv ("group:" ++ groupOf groupField)) = true)
    (hidx : shapeIds (lookupA st.kv "gallery:index") = true) :
    (handleUpload now rand groupField (fs.map FormEntry.file) st).1.status = 200 ∧
    (handleUpload now rand groupField (fs.map FormEntry.file) st).1.images.length
      = fs.length ∧
    (∀ m ∈ (handleUpload now rand groupField (fs.map FormEntry.file) st).1.images,
      m.group = groupOf groupField) ∧
    (∀ m ∈ (handleUpload now rand groupField (fs.map FormEntry.file) st).1.images,
      lookupA (handleUpload now rand groupField (fs.map FormEntry.file) st).2.kv
          ("image:" ++ m.id) = some (.rcd m) ∧
      lookupA st.kv ("image:" ++ m.id) = none) ∧
    idxOf (handleUpload now rand groupField (fs.map FormEntry.file) st).2
      = idxOf st ++ idsOf now rand 0 fs ∧
    (idxOf (handleUpload now rand groupField (fs.map FormEntry.file) st).2).length
      = (idxOf st).length + fs.length ∧
    (∀ id : String, id ∉ idsOf now rand 0 fs →
      lookupA (handleUpload now rand groupField (fs.map FormEntry.file) st).2.kv
          ("image:" ++ id) = lookupA st.kv ("image:" ++ id)) := by
  obtain ⟨st1, hloop, hpres, hshape1, hgl1, hrec1⟩ :=
    uploadLoop_ok now rand (groupOf groupField) fs 0 st hsz hgrp hids
  have hlenfs : ¬ fs.length = 0 := fun h => hne (List.eq_nil_of_length_eq_zero h)
  have hidx1 : lookupA st1.kv "gallery:index" = lookupA st.kv "gallery:index" := by
    apply hpres
    · intro id _ he
      exact imageKey_ne_indexKey id he.symm
    · intro he
      exact groupKey_ne_indexKey _ he.symm
  have hparse : parseIdsOpt (lookupA st1.kv "gallery:index") = .ok (idxOf st) := by
    rw [hidx1]
    exact parseIdsOpt_of_shape hidx
  have hmetfresh : ∀ m ∈ metasOf now rand (groupOf groupField) 0 fs,
      m.id ∉ idxOf st := by
    intro m hm
    apply hfidx
    rw [← metasOf_map_id now rand (groupOf groupField) 0 fs]
    exact List.mem_map_of_mem ImageMeta.id hm
  have hmnd : ((metasOf now rand (groupOf groupField) 0 fs).map ImageMeta.id).Nodup := by
    rw [metasOf_map_id]; exact hids
  have hfold := foldl_pushUnique (metasOf now rand (groupOf groupField) 0 fs)
    (idxOf st) hmetfresh hmnd
  rw [metasOf_map_id] at hfold
  have hmlen : ¬ (metasOf now rand (groupOf groupField) 0 fs).length = 0 := by
    rw [metasOf_length]; exact hlenfs
  have hrun : handleUpload now rand groupField (fs.map FormEntry.file) st
      = ({ status := 200, images := metasOf now rand (groupOf groupField) 0 fs },
         { st1 with
            kv := putA st1.kv "gallery:index"
                    (.ids (idxOf st ++ idsOf now rand 0 fs)) }) := by
    unfold handleUpload
    rw [if_neg (by simpa using hlenfs)]
    rw [hloop]
    simp only [hparse, hfold, hmlen]
    simp
  rw [hrun]
  refine ⟨rfl, metasOf_length now rand (groupOf groupField) 0 fs,
    metasOf_group now rand (groupOf groupField) 0 fs, ?_, ?_, ?_, ?_⟩
  · intro m hm
    constructor
    · have h1 : ¬ ("image:" ++ m.id) = "gallery:index" := imageKey_ne_indexKey m.id
      simp only [lookupA_putA, if_neg h1]
      exact hrec1 m hm
    · apply hfresh
      rw [← metasOf_map_id now rand (groupOf groupField) 0 fs]
      exact List.mem_map_of_mem ImageMeta.id hm
  · simp [idxOf, lookupA_putA, idsValOf]
  · simp [idxOf, lookupA_putA, idsValOf, List.length_append,
      idsOf_length now rand 0 fs]
  · intro id hid
    have h1 : ¬ ("image:" ++ id) = "gallery:index" := imageKey_ne_indexKey id
    simp only [lookupA_putA, if_neg h1]
    apply hpres
    · intro id' hid' he
      exact hid (imageKey_inj he ▸ hid')
    · exact imageKey_ne_groupKey id (groupOf groupField)

/-- Witness for C1 at a concrete two-file upload into an empty store. -/
theorem claim_C1_upload_creates_records_witness :
    (handleUpload 7 (fun _ => "r") (some "G")
        ([⟨"a.png", "image/png", 5⟩, ⟨"b", "", 3⟩].map FormEntry.file)
        ⟨[], []⟩).1.status = 200 ∧
    (handleUpload 7 (fun _ => "r") (some "G")
        ([⟨"a.png", "image/png", 5⟩, ⟨"b", "", 3⟩].map FormEntry.file)
        ⟨[], []⟩).1.images.length = 2 ∧
    idxOf (handleUpload 7 (fun _ => "r") (some "G")
        ([⟨"a.png", "image/png", 5⟩, ⟨"b", "", 3⟩].map FormEntry.file)
        ⟨[], []⟩).2
      = idxOf (⟨[], []⟩ : Stores) ++ idsOf 7 (fun _ => "r") 0
          [⟨"a.png", "image/png", 5⟩, ⟨"b", "", 3⟩] := by
  have h := claim_C1_upload_creates_records 7 (fun _ => "r") (some "G")
    [⟨"a.png", "image/png", 5⟩, ⟨"b", "", 3⟩] ⟨[], []⟩
    (by decide) (by decide) (by decide) (by decide) (by decide)
    (by decide) (by decide)
  exact ⟨h.1, h.2.1, h.2.2.2.2.1⟩

/-- The upload loop skips every entry that is not file-like (source lines
329-344) without touching either store. -/
theorem uploadLoop_strs (now : Nat) (rand : Nat → String) (group : String) :
    ∀ (ss : List String) (i : Nat) (st : Stores),
    uploadLoop now rand group (ss.map FormEntry.str) i st = (.ok [], st) := by
  intro ss
  induction ss with
  | nil => intro i st; rfl
  | cons s rest ih => intro i st; exact ih (i + 1) st

/-- C5 (amended): an upload request with no valid file payload returns a
400 and leaves the blob store untouched; with no `images` entries at all
the metadata store is untouched too, while with entries that are all
skipped the handler still rewrites `gallery:index` with its current
content (creating the key, bound to the empty list, when it was
absent). -/
theorem claim_C5_upload_no_valid_files
    (now : Nat) (rand : Nat → String) (groupField : Option String)
    (st : Stores) :
    handleUpload now rand groupField [] st = ({ status := 400 }, st) ∧
    (∀ ss : List String, ss ≠ [] →
      shapeIds (lookupA st.kv "gallery:index") = true →
      handleUpload now rand groupField (ss.map FormEntry.str) st
        = ({ status := 400 },
           { st with kv := putA st.kv "gallery:index" (.ids (idxOf st)) })) := by
  constructor
  · rfl
  · intro ss hne hshape
    have hlen : ¬ (ss.map FormEntry.str).length = 0 := by
      simpa using fun h => hne (List.eq_nil_of_length_eq_zero h)
    unfold handleUpload
    rw [if_neg hlen, uploadLoop_strs]
    simp only [parseIdsOpt_of_shape hshape]
    simp [idxOf]

/-- Witness for the amended C5 at concrete inputs: an empty entry list
leaves the empty store unchanged; a single skipped string entry creates
the index key bound to the empty list. -/
theorem claim_C5_upload_no_valid_files_witness :
    handleUpload 1 (fun _ => "q") none [] ⟨[], []⟩
      = ({ status := 400 }, (⟨[], []⟩ : Stores)) ∧
    handleUpload 1 (fun _ => "q") none (["x"].map FormEntry.str) ⟨[], []⟩
      = ({ status := 400 },
         { (⟨[], []⟩ : Stores) with
            kv := putA ([] : List (String × KVVal)) "gallery:index"
                    (.ids (idxOf ⟨[], []⟩)) }) := by
  have h := claim_C5_upload_no_valid_files 1 (fun _ => "q") none ⟨[], []⟩
  exact ⟨h.1, h.2 ["x"] (by decide) (by decide)⟩

/-- Counterexample to C5 as stated: uploading a single non-file entry into
a store with no gallery index returns the 400, but a key has been created
in the metadata store (`gallery:index`, bound to the empty list), so the
metadata store is not left unchanged. -/
theorem claim_C5_counterexample :
    (handleUpload 0 (fun _ => "") none [FormEntry.str "x"] ⟨[], []⟩).1.status
      = 400 ∧
    lookupA (⟨[], []⟩ : Stores).kv "gallery:index" = none ∧
    lookupA (handleUpload 0 (fun _ => "") none [FormEntry.str "x"]
        ⟨[], []⟩).2.kv "gallery:index" = some (.ids []) ∧
    (handleUpload 0 (fun _ => "") none [FormEntry.str "x"] ⟨[], []⟩).2
      ≠ (⟨[], []⟩ : Stores) := by
  refine ⟨rfl, rfl, rfl, ?_⟩
  intro h
  have h2 := congrArg Stores.kv h
  simp [handleUpload, uploadLoop, parseIdsOpt, putA, lookupA] at h2

/-- Whatever the outcome of one upload iteration (success, verification
failure, or a raised error), the only KV keys it can touch are the file's
own `image:` key and the group key. -/
theorem processFile_kv_pres (now : Nat) (rand : Nat → String) (group : String)
    (i : Nat) (f : FilePayload) (st : Stores) (key : String)
    (hkimg : ¬ key = "image:" ++ (metaOf now rand group i f).id)
    (hkgrp : ¬ key = "group:" ++ group) :
    lookupA (processFile now rand group i f st).2.kv key = lookupA st.kv key := by
  unfold processFile
  have hgi : ¬ ("group:" ++ group) = "image:" ++ (metaOf now rand group i f).id :=
    fun h => imageKey_ne_groupKey _ _ h.symm
  by_cases hz : f.size = 0
  · simp [lookupA_putA, hz]
  · cases hgv : lookupA st.kv ("group:" ++ group) with
    | none => simp [lookupA_putA, hz, hgi, hgv, parseIdsOpt, hkimg, hkgrp]
    | some v =>
      cases v with
      | ids l => simp [lookupA_putA, hz, hgi, hgv, parseIdsOpt, hkimg, hkgrp]
      | rcd m => simp [lookupA_putA, hz, hgi, hgv, parseIdsOpt, hkimg]

/-- If some entry of the batch is a file with an empty body, the upload
loop raises (either at that file's verification step or earlier), and any
KV key other than the keys of the files before it and the group key is
left untouched. -/
theorem uploadLoop_zero_size (now : Nat) (rand : Nat → String) (group : String) :
    ∀ (es : List FormEntry) (i : Nat) (st : Stores) (j : Nat) (f : FilePayload)
      (key : String),
    es.get? j = some (.file f) → f.size = 0 →
    (∀ k, k < j → ¬ key = "image:" ++ imageIdGen now rand (i + k)) →
    ¬ key = "group:" ++ group →
    (∃ e, (uploadLoop now rand group es i st).1 = .error e) ∧
    lookupA (uploadLoop now rand group es i st).2.kv key = lookupA st.kv key := by
  intro es
  induction es with
  | nil => intro i st j f key hj; simp at hj
  | cons e rest ih =>
    intro i st j f key hj hz hkpre hkgrp
    cases j with
    | zero =>
      have he : e = FormEntry.file f := by simpa using hj
      subst he
      have hpf : processFile now rand group i f st
          = (.error "Upload verification failed - file size is 0",
             { st with
                r2 := putA st.r2 (metaOf now rand group i f).fileName
                  (R2Obj.mk f.size (metaOf now rand group i f).type) }) := by
        unfold processFile
        simp [lookupA_putA, hz]
      rw [uploadLoop, hpf]
      exact ⟨⟨_, rfl⟩, rfl⟩
    | succ j' =>
      have hj' : rest.get? j' = some (.file f) := by simpa using hj
      cases e with
      | str s =>
        have hkpre' : ∀ k, k < j' →
            ¬ key = "image:" ++ imageIdGen now rand ((i + 1) + k) := by
          intro k hk
          have : (i + 1) + k = i + (k + 1) := by omega
          rw [this]
          exact hkpre (k + 1) (by omega)
        exact ih (i + 1) st j' f key hj' hz hkpre' hkgrp
      | file f0 =>
        have hk0 : ¬ key = "image:" ++ (metaOf now rand group i f0).id := by
          have := hkpre 0 (by omega)
          simpa using this
        have hpres0 := processFile_kv_pres now rand group i f0 st key hk0 hkgrp
        cases hpf : processFile now rand group i f0 st with
        | mk res st1 =>
          rw [hpf] at hpres0
          cases res with
          | error e0 =>
            have heq : uploadLoop now rand group (FormEntry.file f0 :: rest) i st
                = (.error e0, st1) := by
              rw [uploadLoop, hpf]
            rw [heq]
            exact ⟨⟨e0, rfl⟩, hpres0⟩
          | ok m =>
            have hkpre' : ∀ k, k < j' →
                ¬ key = "image:" ++ imageIdGen now rand ((i + 1) + k) := by
              intro k hk
              have : (i + 1) + k = i + (k + 1) := by omega
              rw [this]
              exact hkpre (k + 1) (by omega)
            obtain ⟨⟨e1, herr⟩, hpres1⟩ :=
              ih (i + 1) st1 j' f key hj' hz hkpre' hkgrp
            cases huL : uploadLoop now rand group rest (i + 1) st1 with
            | mk res1 st2 =>
              rw [huL] at herr hpres1
              cases res1 with
              | error e2 =>
                have heq : uploadLoop now rand group (FormEntry.file f0 :: rest) i st
                    = (.error e2, st2) := by
                  rw [uploadLoop, hpf]
                  simp only [huL]
                rw [heq]
                exact ⟨⟨e2, rfl⟩, hpres1.trans hpres0⟩
              | ok ms => simp at herr

/-- C7: a file whose blob readback reports size zero makes the whole
request fail with a 500 and no metadata record is written under that
file's id (the embedding's blob store is durable — spec §5 — so the
only realizable verification failure is the zero-size one, which occurs
exactly for an empty file body). -/
theorem claim_C7_upload_verification
    (now : Nat) (rand : Nat → String) (groupField : Option String)
    (entries : List FormEntry) (st : Stores) (j : Nat) (f : FilePayload)
    (hj : entries.get? j = some (.file f)) (hz : f.size = 0)
    (hdist : ∀ k, k < j → imageIdGen now rand k ≠ imageIdGen now rand j) :
    (handleUpload now rand groupField entries st).1.status = 500 ∧
    lookupA (handleUpload now rand groupField entries st).2.kv
        ("image:" ++ imageIdGen now rand j)
      = lookupA st.kv ("image:" ++ imageIdGen now rand j) := by
  have hlen : ¬ entries.length = 0 := by
    intro h
    rw [List.eq_nil_of_length_eq_zero h] at hj
    simp at hj
  have hkpre : ∀ k, k < j →
      ¬ ("image:" ++ imageIdGen now rand j) = "image:" ++ imageIdGen now rand (0 + k) := by
    intro k hk he
    exact hdist k hk (Nat.zero_add k ▸ (imageKey_inj he).symm)
  have hkgrp : ¬ ("image:" ++ imageIdGen now rand j)
      = "group:" ++ groupOf groupField :=
    imageKey_ne_groupKey _ _
  obtain ⟨⟨e, herr⟩, hpres⟩ :=
    uploadLoop_zero_size now rand (groupOf groupField) entries 0 st j f
      ("image:" ++ imageIdGen now rand j) hj hz hkpre hkgrp
  unfold handleUpload
  rw [if_neg hlen]
  cases huL : uploadLoop now rand (groupOf groupField) entries 0 st with
  | mk res st1 =>
    rw [huL] at herr hpres
    cases res with
    | error e1 => exact ⟨rfl, hpres⟩
    | ok ms => simp at herr

/-- Witness for C7: a single empty file fails the whole request and writes
no record. -/
theorem claim_C7_upload_verification_witness :
    (handleUpload 3 (fun _ => "r") (some "G")
        [FormEntry.file ⟨"a.png", "image/png", 0⟩] ⟨[], []⟩).1.status = 500 ∧
    lookupA (handleUpload 3 (fun _ => "r") (some "G")
        [FormEntry.file ⟨"a.png", "image/png", 0⟩] ⟨[], []⟩).2.kv
        ("image:" ++ imageIdGen 3 (fun _ => "r") 0) = none := by
  have h := claim_C7_upload_verification 3 (fun _ => "r") (some "G")
    [FormEntry.file ⟨"a.png", "image/png", 0⟩] ⟨[], []⟩ 0
    ⟨"a.png", "image/png", 0⟩ (by decide) (by decide)
    (fun k hk => absurd hk (by omega))
  exact ⟨h.1, h.2.trans rfl⟩

/-- The generated object name `image-<id>.<ext>` never carries the storage
directory as a leading pattern, so the directory is always prepended. -/
theorem strStarts_imageName (x y z : String) :
    strStarts ("image-" ++ x ++ y ++ z) "gallery-imagessda/" = false := by
  show charsStart "gallery-imagessda/".data ("image-" ++ x ++ y ++ z).data = false
  rw [String.data_append, String.data_append, String.data_append]
  rfl

/-- Counterexample to C8: for a payload whose filename has no extension
(no dot), the code takes the whole filename as the extension — JS
`"photo".split('.').pop()` is `"photo"`, which is truthy — so the declared
MIME type (`image/png`, which the fixed map sends to `png`) is never
consulted, contradicting the claim that the MIME-type fallback applies. -/
theorem claim_C8_counterexample :
    fileExtensionOf ⟨"photo", "image/png", 5⟩ = "photo" ∧
    (extMap "image/png").getD "jpg" = "png" ∧
    fileExtensionOf ⟨"photo", "image/png", 5⟩ ≠ (extMap "image/png").getD "jpg" ∧
    r2KeyOf "id0" ⟨"photo", "image/png", 5⟩
      = "gallery-imagessda/image-id0.photo" := by
  refine ⟨by decide, by decide, by decide, by decide⟩

/-- C8 (amended): the storage key is the directory, the fixed stem, the
generated id and a dot-separated extension.  The extension comes from the
filename whenever the filename is non-empty: the part after the last dot,
the whole filename when it contains no dot, and the default `jpg` when the
part after the last dot is empty.  Only for an absent (empty) filename is
the declared MIME type consulted through the fixed map, with default
`jpg`. -/
theorem claim_C8_storage_key_amended (imageId : String) (f : FilePayload) :
    r2KeyOf imageId f
      = "gallery-imagessda/" ++ ("image-" ++ imageId ++ "." ++ fileExtensionOf f) ∧
    (f.name ≠ "" → '.' ∉ f.name.data → fileExtensionOf f = f.name) ∧
    (∀ pre e : String, f.name = pre ++ "." ++ e → '.' ∉ e.data → e ≠ "" →
      fileExtensionOf f = e) ∧
    (∀ pre : String, f.name = pre ++ "." → fileExtensionOf f = "jpg") ∧
    (f.name = "" → f.type ≠ "" → fileExtensionOf f = (extMap f.type).getD "jpg") ∧
    (f.name = "" → f.type = "" → fileExtensionOf f = "jpg") := by
  refine ⟨?_, ?_, ?_, ?_, ?_, ?_⟩
  · simp only [r2KeyOf]
    rw [strStarts_imageName]
    simp
  · intro hn hd
    unfold fileExtensionOf
    rw [if_pos hn, splitDot_no_dot hd]
    have hne : ¬ f.name.data = [] := by
      intro h
      exact hn (String.ext h)
    simp only [List.getLast?_singleton]
    rw [if_neg hne]
  · intro pre e hname hd hne
    have hdata : f.name.data = pre.data ++ '.' :: e.data := by
      rw [hname]
      simp [String.data_append]
    have hn : f.name ≠ "" := by
      intro h0
      have h1 := congrArg String.data h0
      rw [hdata] at h1
      simp at h1
    unfold fileExtensionOf
    rw [if_pos hn, hdata, splitDot_getLast_after_dot hd]
    have hed : ¬ e.data = [] := by
      intro h
      exact hne (String.ext h)
    simp only []
    rw [if_neg hed]
  · intro pre hname
    have hdata : f.name.data = pre.data ++ '.' :: [] := by
      rw [hname]
      simp [String.data_append]
    have hn : f.name ≠ "" := by
      intro h0
      have h1 := congrArg String.data h0
      rw [hdata] at h1
      simp at h1
    unfold fileExtensionOf
    rw [if_pos hn, hdata, splitDot_getLast_after_dot (by simp)]
    simp
  · intro hn ht
    unfold fileExtensionOf
    rw [if_neg (by simp [hn]), if_pos ht]
  · intro hn ht
    unfold fileExtensionOf
    rw [if_neg (by simp [hn]), if_neg (by simp [ht])]

/-- Witness for the amended C8 at concrete payloads of each kind,
including a trailing-dot filename. -/
theorem claim_C8_storage_key_amended_witness :
    fileExtensionOf ⟨"a.tar.gz", "image/png", 1⟩ = "gz" ∧
    fileExtensionOf ⟨"photo", "image/png", 1⟩ = "photo" ∧
    fileExtensionOf ⟨"a.", "image/png", 1⟩ = "jpg" ∧
    fileExtensionOf ⟨"", "image/webp", 1⟩ = "webp" ∧
    fileExtensionOf ⟨"", "", 1⟩ = "jpg" ∧
    r2KeyOf "k" ⟨"a.tar.gz", "image/png", 1⟩
      = "gallery-imagessda/" ++ ("image-" ++ "k" ++ "." ++ fileExtensionOf ⟨"a.tar.gz", "image/png", 1⟩) := by
  refine ⟨?_, ?_, ?_, ?_, ?_,
    (claim_C8_storage_key_amended "k" ⟨"a.tar.gz", "image/png", 1⟩).1⟩
  · exact (claim_C8_storage_key_amended "x" ⟨"a.tar.gz", "image/png", 1⟩).2.2.1
      "a.tar" "gz" (by decide) (by decide) (by decide)
  · exact ((claim_C8_storage_key_amended "x" ⟨"photo", "image/png", 1⟩).2.1
      (by decide) (by decide))
  · exact ((claim_C8_storage_key_amended "x" ⟨"a.", "image/png", 1⟩).2.2.2.1
      "a" (by decide))
  · exact ((claim_C8_storage_key_amended "x" ⟨"", "image/webp", 1⟩).2.2.2.2.1
      rfl (by decide))
  · exact ((claim_C8_storage_key_amended "x" ⟨"", "", 1⟩).2.2.2.2.2 rfl rfl)

/-- A path matching the delete-group route matches no earlier route
pattern. -/
theorem dgPath_facts {path : String}
    (h : strStarts path "/api/delete-group/" = true) :
    ¬ path = "/api/upload" ∧ ¬ path = "/api/gallery" ∧ ¬ path = "/api/groups" ∧
    strStarts path "/api/delete/" = false := by
  refine ⟨?_, ?_, ?_, ?_⟩
  · intro he; rw [he] at h; exact absurd h (by decide)
  · intro he; rw [he] at h; exact absurd h (by decide)
  · intro he; rw [he] at h; exact absurd h (by decide)
  · have hr := charsStart_restore (p := "/api/delete-group/".data)
      (l := path.data) h
    show charsStart "/api/delete/".data path.data = false
    rw [← hr]
    rfl

/-- Counterexample to C6 as stated: on the delete-group endpoint the
suffix is percent-decoded before both the 405 response and the dispatch,
so a malformed suffix is answered 500 by the catch — a wrong method gets
no 405 with an `Allow` header, and the supported method reaches no
handler. -/
theorem claim_C6_counterexample :
    route "GET" "/api/delete-group/%" = .serverError ∧
    route "DELETE" "/api/delete-group/%" = .serverError :=
  ⟨by decide, by decide⟩

/-- C6 (amended): for a non-preflight request, an unknown path is
answered 404; a known path with the wrong method is answered 405 with the
endpoint's supported method as the `Allow` value and the supported method
dispatches to exactly one handler — except on the delete-group endpoint,
whose group-name suffix is percent-decoded inside the guarded region
before either answer: a malformed suffix makes the request fail with the
catch-all 500, carrying no `Allow` header and reaching no handler. -/
theorem claim_C6_router_amended (method path : String)
    (hm : method ≠ "OPTIONS") :
    (strStarts path "/api/delete-group/" = true →
      decodeURIComponent (strDropN path 18) = none →
      route method path = .serverError) ∧
    ((strStarts path "/api/delete-group/" = true →
        (decodeURIComponent (strDropN path 18)).isSome) →
      (∀ allow, allowedMethod path = some allow → method ≠ allow →
        route method path = .methodNotAllowed allow) ∧
      (allowedMethod path = none → route method path = .notFound) ∧
      (∀ allow, allowedMethod path = some allow → method = allow →
        ∃ h : Handler, route method path = .dispatch h)) := by
  constructor
  · intro hdg hdec
    obtain ⟨h1, h2, h3, h4⟩ := dgPath_facts hdg
    unfold route
    rw [if_neg hm, if_neg h1, if_neg h2, if_neg h3, h4, hdg, hdec]
    simp
  · intro hsome
    by_cases hdg : strStarts path "/api/delete-group/" = true
    · obtain ⟨h1, h2, h3, h4⟩ := dgPath_facts hdg
      obtain ⟨g, hg⟩ := Option.isSome_iff_exists.mp (hsome hdg)
      have hroute : route method path
          = if method ≠ "DELETE" then RouteResult.methodNotAllowed "DELETE"
            else .dispatch (.deleteGroup g) := by
        unfold route
        rw [if_neg hm, if_neg h1, if_neg h2, if_neg h3, h4, hdg, hg]
        simp
      have hallow : allowedMethod path = some "DELETE" := by
        unfold allowedMethod
        rw [if_neg h1, if_neg h2, if_neg h3, h4, hdg]
        simp
      refine ⟨?_, ?_, ?_⟩
      · intro allow ha hna
        rw [hallow] at ha
        cases Option.some.inj ha
        rw [hroute, if_pos hna]
      · intro ha
        rw [hallow] at ha
        cases ha
      · intro allow ha hme
        rw [hallow] at ha
        cases Option.some.inj ha
        exact ⟨.deleteGroup g, by rw [hroute, if_neg (fun hc => hc hme)]⟩
    · unfold route allowedMethod
      rw [if_neg hm]
      split_ifs <;>
        refine ⟨fun allow ha hna => ?_, fun ha => ?_, fun allow ha hme => ?_⟩ <;>
        simp_all

/-- Witness for the amended C6: a GET on the upload endpoint is answered
405 allowing POST; an unknown path is answered 404; a DELETE on the
delete-group endpoint with a well-formed encoded suffix dispatches; a
malformed suffix is answered 500 for both methods. -/
theorem claim_C6_router_amended_witness :
    route "GET" "/api/upload" = .methodNotAllowed "POST" ∧
    route "GET" "/api/nope" = .notFound ∧
    (∃ h : Handler, route "DELETE" "/api/delete-group/a%20b" = .dispatch h) ∧
    route "GET" "/api/delete-group/%" = .serverError := by
  refine ⟨?_, ?_, ?_, ?_⟩
  · exact ((claim_C6_router_amended "GET" "/api/upload" (by decide)).2
      (by decide)).1 "POST" (by decide) (by decide)
  · exact ((claim_C6_router_amended "GET" "/api/nope" (by decide)).2
      (by decide)).2.1 (by decide)
  · exact ((claim_C6_router_amended "DELETE" "/api/delete-group/a%20b"
      (by decide)).2 (by decide)).2.2 "DELETE" (by decide) rfl
  · exact (claim_C6_router_amended "GET" "/api/delete-group/%"
      (by decide)).1 (by decide) (by decide)

theorem strDropN_groupKey (g : String) : strDropN ("group:" ++ g) 6 = g := by
  apply String.ext
  show (("group:" ++ g).data).drop 6 = g.data
  rw [String.data_append]
  have h6 : ("group:".data).length = 6 := rfl
  rw [← h6]
  exact List.drop_left _ _

theorem groupKey_of_starts {k : String} (h : strStarts k "group:" = true) :
    "group:" ++ strDropN k 6 = k := by
  have hr := strStarts_restore h
  simpa using hr

/-- Full characterization of the groups listing: sorted ascending, and a
label is listed iff it is non-empty and its `group:` key holds an entry. -/
theorem handleGetGroups_spec (st : Stores) :
    (handleGetGroups st).status = 200 ∧
    ((handleGetGroups st).groups).Pairwise (fun a b : String => a ≤ b) ∧
    (∀ g : String, g ∈ (handleGetGroups st).groups ↔
      (g ≠ "" ∧ (lookupA st.kv ("group:" ++ g)).isSome)) := by
  have htrans : ∀ a b c : String, decide (a ≤ b) → decide (b ≤ c) → decide (a ≤ c) := by
    intro a b c hab hbc
    exact decide_eq_true (le_trans (of_decide_eq_true hab) (of_decide_eq_true hbc))
  have htotal : ∀ a b : String, decide (a ≤ b) || decide (b ≤ a) := by
    intro a b
    rcases le_total a b with h | h <;> simp [h]
  refine ⟨rfl, ?_, ?_⟩
  · show (List.mergeSort _ (fun a b : String => decide (a ≤ b))).Pairwise _
    exact (List.sorted_mergeSort htrans htotal _).imp (fun h => of_decide_eq_true h)
  · intro g
    show g ∈ List.mergeSort _ (fun a b : String => decide (a ≤ b)) ↔ _
    rw [List.mem_mergeSort]
    constructor
    · intro hg
      have hmem : g ∈ ((((st.kv.map Prod.fst).filter
            (fun k => strStarts k "group:")).map (fun k => strDropN k 6)).filter
            (fun g => !(g = "") && !(g = "Ungrouped")))
          ∨ (g = "Ungrouped" ∧ (lookupA st.kv "group:Ungrouped").isSome) := by
        cases hu : lookupA st.kv "group:Ungrouped" with
        | none => simp only [hu] at hg; exact Or.inl hg
        | some v =>
          simp only [hu] at hg
          rcases List.mem_append.mp hg with h | h
          · exact Or.inl h
          · exact Or.inr ⟨by simpa using h, rfl⟩
      rcases hmem with h | ⟨hgu, hsome⟩
      · rcases List.mem_filter.mp h with ⟨hmap, hcond⟩
        have hcond' : g ≠ "" ∧ g ≠ "Ungrouped" := by simpa using hcond
        rcases List.mem_map.mp hmap with ⟨k, hk, hdrop⟩
        rcases List.mem_filter.mp hk with ⟨hkin, hkpre⟩
        have hkeq : "group:" ++ g = k := by
          rw [← hdrop]
          exact groupKey_of_starts hkpre
        refine ⟨hcond'.1, ?_⟩
        rw [lookupA_isSome_iff, hkeq]
        exact hkin
      · subst hgu
        exact ⟨by decide, hsome⟩
    · rintro ⟨hne, hsome⟩
      by_cases hgu : g = "Ungrouped"
      · subst hgu
        cases hu : lookupA st.kv "group:Ungrouped" with
        | none =>
          rw [show ("group:" ++ "Ungrouped") = "group:Ungrouped" from rfl, hu] at hsome
          simp at hsome
        | some v =>
          simp only [hu]
          exact List.mem_append.mpr (Or.inr (by simp))
      · have hkin : ("group:" ++ g) ∈ st.kv.map Prod.fst := by
          rw [← lookupA_isSome_iff]
          exact hsome
        have hgrps : g ∈ ((((st.kv.map Prod.fst).filter
            (fun k => strStarts k "group:")).map (fun k => strDropN k 6)).filter
            (fun g => !(g = "") && !(g = "Ungrouped"))) := by
          apply List.mem_filter.mpr
          refine ⟨?_, by simp [hne, hgu]⟩
          apply List.mem_map.mpr
          refine ⟨"group:" ++ g, ?_, strDropN_groupKey g⟩
          exact List.mem_filter.mpr ⟨hkin, strStarts_append _ _⟩
        cases hu : lookupA st.kv "group:Ungrouped" with
        | none => simpa only [hu] using hgrps
        | some v =>
          simp only [hu]
          exact List.mem_append.mpr (Or.inl hgrps)

/-- C9: the groups listing enumerates the `group:`-prefixed keys, strips
the prefix to recover labels, includes the sentinel label `Ungrouped` only
when its own key holds a stored entry, and returns the labels in ascending
lexicographic order — a label is listed iff it is non-empty and its
`group:` key holds an entry. -/
theorem claim_C9_groups_listing (st : Stores) :
    (handleGetGroups st).status = 200 ∧
    ((handleGetGroups st).groups).Pairwise (fun a b : String => a ≤ b) ∧
    (∀ g : String, g ∈ (handleGetGroups st).groups ↔
      (g ≠ "" ∧ (lookupA st.kv ("group:" ++ g)).isSome)) :=
  handleGetGroups_spec st

/-- Witness for C9 at a concrete store: both labels are listed in
ascending order and the membership characterization holds for a present
and an absent label. -/
theorem claim_C9_groups_listing_witness :
    ((handleGetGroups ⟨[], [("group:B", .ids ["1"]), ("group:A", .ids ["2"])]⟩).groups.Pairwise
      (fun a b : String => a ≤ b)) ∧
    ("B" ∈ (handleGetGroups ⟨[], [("group:B", .ids ["1"]), ("group:A", .ids ["2"])]⟩).groups ↔
      ("B" ≠ "" ∧ (lookupA [("group:B", KVVal.ids ["1"]), ("group:A", KVVal.ids ["2"])]
        ("group:" ++ "B")).isSome)) := by
  have h := claim_C9_groups_listing ⟨[], [("group:B", .ids ["1"]), ("group:A", .ids ["2"])]⟩
  exact ⟨h.2.1, h.2.2 "B"⟩

theorem newestFirst_le {a b : ImageMeta} (h : newestFirst a b = true) :
    b.uploadedAt ≤ a.uploadedAt :=
  of_decide_eq_true h

/-- C2: the gallery listing reads the index and resolves each id, skipping
ids with no record (`resolveImages` is exactly that hydration loop), and
returns the records sorted by upload time descending; in particular when
the resolved records are some three records with times t1 < t2 < t3, the
returned order of times is t3, t2, t1. -/
theorem claim_C2_gallery_listing (st : Stores)
    (hshape : shapeIds (lookupA st.kv "gallery:index") = true) :
    (handleGetGallery st).status = 200 ∧
    (handleGetGallery st).images.Perm (resolveImages st.kv (idxOf st)) ∧
    (handleGetGallery st).images.Pairwise
      (fun a b => b.uploadedAt ≤ a.uploadedAt) ∧
    (∀ r1 r2 r3 : ImageMeta,
      (resolveImages st.kv (idxOf st)).Perm [r1, r2, r3] →
      r1.uploadedAt < r2.uploadedAt → r2.uploadedAt < r3.uploadedAt →
      (handleGetGallery st).images.map ImageMeta.uploadedAt
        = [r3.uploadedAt, r2.uploadedAt, r1.uploadedAt]) := by
  have hrun : handleGetGallery st
      = { status := 200
          images := (resolveImages st.kv (idxOf st)).mergeSort newestFirst } := by
    unfold handleGetGallery
    rw [parseIdsOpt_of_shape hshape]
    rfl
  have htrans : ∀ a b c : ImageMeta,
      newestFirst a b → newestFirst b c → newestFirst a c := by
    intro a b c hab hbc
    exact decide_eq_true (le_trans (newestFirst_le hbc) (newestFirst_le hab))
  have htotal : ∀ a b : ImageMeta, newestFirst a b || newestFirst b a := by
    intro a b
    rcases le_total a.uploadedAt b.uploadedAt with h | h <;>
      simp [newestFirst, h]
  have hperm : (handleGetGallery st).images.Perm
      (resolveImages st.kv (idxOf st)) := by
    rw [hrun]
    exact List.mergeSort_perm _ _
  have hsorted : (handleGetGallery st).images.Pairwise
      (fun a b => b.uploadedAt ≤ a.uploadedAt) := by
    rw [hrun]
    exact (List.sorted_mergeSort htrans htotal _).imp newestFirst_le
  refine ⟨by rw [hrun], hperm, hsorted, ?_⟩
  intro r1 r2 r3 hp h12 h23
  haveI : IsAntisymm Nat (fun a b : Nat => a ≥ b) :=
    ⟨fun a b h1 h2 => le_antisymm h2 h1⟩
  have hmp : ((handleGetGallery st).images.map ImageMeta.uploadedAt).Perm
      [r3.uploadedAt, r2.uploadedAt, r1.uploadedAt] := by
    have h1 := (hperm.trans hp).map ImageMeta.uploadedAt
    refine h1.trans ?_
    have : [r3.uploadedAt, r2.uploadedAt, r1.uploadedAt]
        = [r1.uploadedAt, r2.uploadedAt, r3.uploadedAt].reverse := rfl
    rw [this]
    exact ([r1.uploadedAt, r2.uploadedAt, r3.uploadedAt].reverse_perm).symm
  have hs1 : ((handleGetGallery st).images.map ImageMeta.uploadedAt).Pairwise
      (fun a b : Nat => a ≥ b) := by
    exact hsorted.map _ (fun a b h => h)
  have hs2 : ([r3.uploadedAt, r2.uploadedAt, r1.uploadedAt]).Pairwise
      (fun a b : Nat => a ≥ b) := by
    refine List.Pairwise.cons ?_ (List.Pairwise.cons ?_ (List.pairwise_singleton _ _))
    · intro x hx
      rcases List.mem_cons.mp hx with h | h
      · subst h; exact le_of_lt h23
      · have hx1 : x = r1.uploadedAt := by simpa using h
        subst hx1; exact le_of_lt (lt_trans h12 h23)
    · intro x hx
      have hx1 : x = r1.uploadedAt := by simpa using hx
      subst hx1; exact le_of_lt h12
  exact List.eq_of_perm_of_sorted hmp hs1 hs2

/-- Witness for C2 at a concrete three-record store inserted in a
non-sorted order. -/
theorem claim_C2_gallery_listing_witness :
    (handleGetGallery ⟨[],
        [("gallery:index", .ids ["a", "b", "c"]),
         ("image:a", .rcd ⟨"a", "fa", "ua", "G", 20, 1, "t"⟩),
         ("image:b", .rcd ⟨"b", "fb", "ub", "G", 10, 1, "t"⟩),
         ("image:c", .rcd ⟨"c", "fc", "uc", "G", 30, 1, "t"⟩)]⟩).images.map
      ImageMeta.uploadedAt = [30, 20, 10] := by
  have h := claim_C2_gallery_listing ⟨[],
    [("gallery:index", .ids ["a", "b", "c"]),
     ("image:a", .rcd ⟨"a", "fa", "ua", "G", 20, 1, "t"⟩),
     ("image:b", .rcd ⟨"b", "fb", "ub", "G", 10, 1, "t"⟩),
     ("image:c", .rcd ⟨"c", "fc", "uc", "G", 30, 1, "t"⟩)]⟩ (by decide)
  exact h.2.2.2
    ⟨"b", "fb", "/api/image/fb", "G", 10, 1, "t"⟩
    ⟨"a", "fa", "/api/image/fa", "G", 20, 1, "t"⟩
    ⟨"c", "fc", "/api/image/fc", "G", 30, 1, "t"⟩
    (by decide) (by decide) (by decide)

theorem removeFromGroup_spec (groupKey imageId : String) (st : Stores)
    (h : shapeIds (lookupA st.kv groupKey) = true) :
    ∃ st', removeFromGroup groupKey imageId st = .ok st' ∧
      st'.r2 = st.r2 ∧
      (∀ key, ¬ key = groupKey → lookupA st'.kv key = lookupA st.kv key) ∧
      lookupA st'.kv groupKey =
        (if (idsValOf (lookupA st.kv groupKey)).filter (fun id => !(id = imageId)) = []
         then none
         else some (.ids ((idsValOf (lookupA st.kv groupKey)).filter
                (fun id => !(id = imageId))))) := by
  unfold removeFromGroup
  cases hv : lookupA st.kv groupKey with
  | none =>
    refine ⟨st, rfl, rfl, fun _ _ => rfl, ?_⟩
    rw [hv]
    simp [idsValOf]
  | some v =>
    cases v with
    | rcd m => rw [hv] at h; simp [shapeIds] at h
    | ids l =>
      by_cases hl : l.filter (fun id => !(id = imageId)) = []
      · have hlen : ¬ 0 < (l.filter (fun id => !(id = imageId))).length := by
          rw [hl]; simp
        refine ⟨⟨st.r2, delA st.kv groupKey⟩, by simp [hlen], rfl, ?_, ?_⟩
        · intro key hk
          simp [lookupA_delA, hk]
        · simp [lookupA_delA, idsValOf, hl]
      · have hlen : 0 < (l.filter (fun id => !(id = imageId))).length :=
          List.length_pos.mpr hl
        refine ⟨⟨st.r2,
            putA st.kv groupKey (.ids (l.filter (fun id => !(id = imageId))))⟩,
          by simp [hlen], rfl, ?_, ?_⟩
        · intro key hk
          simp [lookupA_putA, hk]
        · simp [lookupA_putA, idsValOf, hl]

theorem removeFromIndex_spec (imageId : String) (st : Stores)
    (h : shapeIds (lookupA st.kv "gallery:index") = true) :
    ∃ st', removeFromIndex imageId st = .ok st' ∧
      st'.r2 = st.r2 ∧
      (∀ key, ¬ key = "gallery:index" → lookupA st'.kv key = lookupA st.kv key) ∧
      idxOf st' = (idxOf st).filter (fun id => !(id = imageId)) := by
  unfold removeFromIndex
  cases hv : lookupA st.kv "gallery:index" with
  | none =>
    refine ⟨st, rfl, rfl, fun _ _ => rfl, ?_⟩
    unfold idxOf
    rw [hv]
    simp [idsValOf]
  | some v =>
    cases v with
    | rcd m => rw [hv] at h; simp [shapeIds] at h
    | ids l =>
      refine ⟨⟨st.r2,
          putA st.kv "gallery:index" (.ids (l.filter (fun id => !(id = imageId))))⟩,
        rfl, rfl, ?_, ?_⟩
      · intro key hk
        simp [lookupA_putA, hk]
      · unfold idxOf
        rw [hv]
        simp [lookupA_putA, idsValOf]

/-- C3: a delete-one request for an absent id returns 404 and leaves both
stores unchanged; for a stored record it deletes the blob and the record,
filters the id out of its group's list (removing the group key entirely
when the filtered list is empty, after which the group no longer appears
in the groups listing), filters the id out of the gallery index, and
returns success. -/
theorem claim_C3_delete_image (imageId : String) (st : Stores) :
    (lookupA st.kv ("image:" ++ imageId) = none →
      handleDeleteImage imageId st = ({ status := 404 }, st)) ∧
    (∀ m : ImageMeta, lookupA st.kv ("image:" ++ imageId) = some (.rcd m) →
      shapeIds (lookupA st.kv ("group:" ++ m.group)) = true →
      shapeIds (lookupA st.kv "gallery:index") = true →
      (handleDeleteImage imageId st).1.status = 200 ∧
      lookupA (handleDeleteImage imageId st).2.r2 m.fileName = none ∧
      lookupA (handleDeleteImage imageId st).2.kv ("image:" ++ imageId) = none ∧
      ((grpListOf st m.group).filter (fun id => !(id = imageId)) ≠ [] →
        lookupA (handleDeleteImage imageId st).2.kv ("group:" ++ m.group)
          = some (.ids ((grpListOf st m.group).filter (fun id => !(id = imageId))))) ∧
      ((grpListOf st m.group).filter (fun id => !(id = imageId)) = [] →
        lookupA (handleDeleteImage imageId st).2.kv ("group:" ++ m.group) = none ∧
        m.group ∉ (handleGetGroups (handleDeleteImage imageId st).2).groups) ∧
      idxOf (handleDeleteImage imageId st).2
        = (idxOf st).filter (fun id => !(id = imageId))) := by
  constructor
  · intro h
    unfold handleDeleteImage
    rw [h]
  · intro m hm hgrp hidx
    set st2 : Stores :=
      ⟨delA st.r2 m.fileName, delA st.kv ("image:" ++ imageId)⟩ with hst2
    have hb2 : ∀ key, ¬ key = "image:" ++ imageId →
        lookupA st2.kv key = lookupA st.kv key := by
      intro key hk
      simp [hst2, lookupA_delA, hk]
    have hgrp2 : lookupA st2.kv ("group:" ++ m.group)
        = lookupA st.kv ("group:" ++ m.group) :=
      hb2 _ (fun h => imageKey_ne_groupKey _ _ h.symm)
    have hidx2 : lookupA st2.kv "gallery:index"
        = lookupA st.kv "gallery:index" :=
      hb2 _ (fun h => imageKey_ne_indexKey _ h.symm)
    obtain ⟨st3, hrg, hr3, hp3, hg3⟩ :=
      removeFromGroup_spec ("group:" ++ m.group) imageId st2
        (by rw [hgrp2]; exact hgrp)
    have hidx3 : lookupA st3.kv "gallery:index"
        = lookupA st.kv "gallery:index" := by
      rw [hp3 _ (fun h => groupKey_ne_indexKey _ h.symm), hidx2]
    obtain ⟨st4, hri, hr4, hp4, hix4⟩ :=
      removeFromIndex_spec imageId st3 (by rw [hidx3]; exact hidx)
    have hrun : handleDeleteImage imageId st = ({ status := 200 }, st4) := by
      unfold handleDeleteImage
      rw [hm]
      unfold deleteImageCore
      simp only [← hst2, hrg, hri]
    rw [hrun]
    have hgl2 : idsValOf (lookupA st2.kv ("group:" ++ m.group))
        = grpListOf st m.group := by
      rw [hgrp2]; rfl
    refine ⟨rfl, ?_, ?_, ?_, ?_, ?_⟩
    · rw [hr4, hr3, hst2]
      simp [lookupA_delA]
    · rw [hp4 _ (fun h => imageKey_ne_indexKey _ h),
        hp3 _ (fun h => imageKey_ne_groupKey _ _ h)]
      simp [hst2, lookupA_delA]
    · intro hne
      rw [hp4 _ (fun h => groupKey_ne_indexKey _ h), hg3, hgl2]
      rw [if_neg hne]
    · intro hemp
      have hnone : lookupA st4.kv ("group:" ++ m.group) = none := by
        rw [hp4 _ (fun h => groupKey_ne_indexKey _ h), hg3, hgl2]
        rw [if_pos hemp]
      refine ⟨hnone, ?_⟩
      intro hmem
      have h1 := ((handleGetGroups_spec st4).2.2 m.group).mp hmem
      rw [hnone] at h1
      simp at h1
    · rw [hix4]
      congr 1
      unfold idxOf
      rw [hidx3]

/-- Witness for C3 at a concrete store: deleting the only image of group
`G` removes its blob, record, group key and index entry. -/
theorem claim_C3_delete_image_witness :
    handleDeleteImage "zz" ⟨[("fa", ⟨3, "t"⟩)],
        [("image:a", .rcd ⟨"a", "fa", "u", "G", 1, 3, "t"⟩),
         ("group:G", .ids ["a"]), ("gallery:index", .ids ["a"])]⟩
      = ({ status := 404 },
         ⟨[("fa", ⟨3, "t"⟩)],
          [("image:a", .rcd ⟨"a", "fa", "u", "G", 1, 3, "t"⟩),
           ("group:G", .ids ["a"]), ("gallery:index", .ids ["a"])]⟩) ∧
    (handleDeleteImage "a" ⟨[("fa", ⟨3, "t"⟩)],
        [("image:a", .rcd ⟨"a", "fa", "u", "G", 1, 3, "t"⟩),
         ("group:G", .ids ["a"]), ("gallery:index", .ids ["a"])]⟩).1.status
      = 200 ∧
    lookupA (handleDeleteImage "a" ⟨[("fa", ⟨3, "t"⟩)],
        [("image:a", .rcd ⟨"a", "fa", "u", "G", 1, 3, "t"⟩),
         ("group:G", .ids ["a"]), ("gallery:index", .ids ["a"])]⟩).2.kv
        ("group:" ++ "G") = none := by
  have h1 := (claim_C3_delete_image "zz" ⟨[("fa", ⟨3, "t"⟩)],
    [("image:a", .rcd ⟨"a", "fa", "u", "G", 1, 3, "t"⟩),
     ("group:G", .ids ["a"]), ("gallery:index", .ids ["a"])]⟩).1 (by decide)
  have h2 := (claim_C3_delete_image "a" ⟨[("fa", ⟨3, "t"⟩)],
    [("image:a", .rcd ⟨"a", "fa", "u", "G", 1, 3, "t"⟩),
     ("group:G", .ids ["a"]), ("gallery:index", .ids ["a"])]⟩).2
    ⟨"a", "fa", "u", "G", 1, 3, "t"⟩ (by decide) (by decide) (by decide)
  exact ⟨h1, h2.1, (h2.2.2.2.2.1 (by decide)).1⟩

/-- Characterization of the delete-group per-id loop under well-shaped
`image:` values: it succeeds, removes every member's record, touches no
other KV key, deletes the blob of every member that had a record, and
never adds KV keys or blobs. -/
theorem deleteGroupLoop_spec :
    ∀ (l : List String) (st : Stores),
    (∀ id ∈ l, shapeRcd (lookupA st.kv ("image:" ++ id)) = true) →
    ∃ st', deleteGroupLoop l st = (.ok (), st') ∧
      (∀ id ∈ l, lookupA st'.kv ("image:" ++ id) = none) ∧
      (∀ key, (∀ id ∈ l, ¬ key = "image:" ++ id) →
        lookupA st'.kv key = lookupA st.kv key) ∧
      (∀ key, lookupA st.kv key = none → lookupA st'.kv key = none) ∧
      (∀ id ∈ l, ∀ m : ImageMeta,
        lookupA st.kv ("image:" ++ id) = some (.rcd m) →
        lookupA st'.r2 m.fileName = none) ∧
      (∀ key, lookupA st.r2 key = none → lookupA st'.r2 key = none) ∧
      (∀ key, (∀ id ∈ l, ∀ m : ImageMeta,
          lookupA st.kv ("image:" ++ id) = some (.rcd m) → ¬ key = m.fileName) →
        lookupA st'.r2 key = lookupA st.r2 key) := by
  intro l
  induction l with
  | nil =>
    intro st _
    exact ⟨st, rfl, by simp, fun _ _ => rfl, fun _ h => h, by simp,
      fun _ h => h, fun _ _ => rfl⟩
  | cons id0 rest ih =>
    intro st hshape
    cases hv : lookupA st.kv ("image:" ++ id0) with
    | none =>
      obtain ⟨st', hrun, h1, h2, h3, h4, h5, h6⟩ :=
        ih st (fun id hid => hshape id (List.mem_cons_of_mem _ hid))
      refine ⟨st', ?_, ?_, ?_, h3, ?_, h5, ?_⟩
      · rw [deleteGroupLoop, hv]
        exact hrun
      · intro id hid
        rcases List.mem_cons.mp hid with h | h
        · subst h; exact h3 _ hv
        · exact h1 id h
      · intro key hk
        exact h2 key (fun id hid => hk id (List.mem_cons_of_mem _ hid))
      · intro id hid m hm
        rcases List.mem_cons.mp hid with h | h
        · subst h; rw [hv] at hm; cases hm
        · exact h4 id h m hm
      · intro key hk
        exact h6 key (fun id hid => hk id (List.mem_cons_of_mem _ hid))
    | some v =>
      cases v with
      | ids l0 =>
        have := hshape id0 (List.mem_cons_self _ _)
        rw [hv] at this
        simp [shapeRcd] at this
      | rcd m0 =>
        set stA : Stores :=
          ⟨delA st.r2 m0.fileName, delA st.kv ("image:" ++ id0)⟩ with hstA
        have hkvA : ∀ key, lookupA stA.kv key
            = if key = "image:" ++ id0 then none else lookupA st.kv key := by
          intro key
          simp [hstA, lookupA_delA]
        have hr2A : ∀ key, lookupA stA.r2 key
            = if key = m0.fileName then none else lookupA st.r2 key := by
          intro key
          simp [hstA, lookupA_delA]
        have hshapeA : ∀ id ∈ rest,
            shapeRcd (lookupA stA.kv ("image:" ++ id)) = true := by
          intro id hid
          rw [hkvA]
          by_cases h : ("image:" ++ id) = "image:" ++ id0
          · rw [if_pos h]; rfl
          · rw [if_neg h]
            exact hshape id (List.mem_cons_of_mem _ hid)
        obtain ⟨st', hrun, h1, h2, h3, h4, h5, h6⟩ := ih stA hshapeA
        refine ⟨st', ?_, ?_, ?_, ?_, ?_, ?_, ?_⟩
        · rw [deleteGroupLoop, hv]
          exact hrun
        · intro id hid
          rcases List.mem_cons.mp hid with h | h
          · subst h
            apply h3
            rw [hkvA, if_pos rfl]
          · exact h1 id h
        · intro key hk
          rw [h2 key (fun id hid => hk id (List.mem_cons_of_mem _ hid)), hkvA,
            if_neg (hk id0 (List.mem_cons_self _ _))]
        · intro key hk
          apply h3
          rw [hkvA]
          by_cases h : key = "image:" ++ id0
          · rw [if_pos h]
          · rw [if_neg h]; exact hk
        · intro id hid m hm
          rcases List.mem_cons.mp hid with h | h
          · subst h
            rw [hv] at hm
            have hm0 : m = m0 := by
              have := Option.some.inj hm
              cases this
              rfl
            subst hm0
            apply h5
            rw [hr2A, if_pos rfl]
          · by_cases hcase : ("image:" ++ id) = "image:" ++ id0
            · rw [hcase, hv] at hm
              have hm0 : m = m0 := by
                have := Option.some.inj hm
                cases this
                rfl
              subst hm0
              apply h5
              rw [hr2A, if_pos rfl]
            · apply h4 id h m
              rw [hkvA, if_neg hcase]
              exact hm
        · intro key hk
          apply h5
          rw [hr2A]
          by_cases h : key = m0.fileName
          · rw [if_pos h]
          · rw [if_neg h]; exact hk
        · intro key hk
          rw [h6, hr2A, if_neg (hk id0 (List.mem_cons_self _ _) m0 hv)]
          intro id hid m hm
          apply hk id (List.mem_cons_of_mem _ hid) m
          rw [hkvA] at hm
          by_cases h : ("image:" ++ id) = "image:" ++ id0
          · rw [if_pos h] at hm; cases hm
          · rw [if_neg h] at hm; exact hm

theorem deleteGroupIndexStep_spec (groupImages : List String) (st : Stores)
    (h : shapeIds (lookupA st.kv "gallery:index") = true) :
    ∃ st', deleteGroupIndexStep groupImages st = .ok st' ∧
      st'.r2 = st.r2 ∧
      (∀ key, ¬ key = "gallery:index" → lookupA st'.kv key = lookupA st.kv key) ∧
      idxOf st' = (idxOf st).filter (fun id => !(groupImages.contains id)) := by
  unfold deleteGroupIndexStep
  cases hv : lookupA st.kv "gallery:index" with
  | none =>
    refine ⟨st, rfl, rfl, fun _ _ => rfl, ?_⟩
    unfold idxOf
    rw [hv]
    simp [idsValOf]
  | some v =>
    cases v with
    | rcd m => rw [hv] at h; simp [shapeIds] at h
    | ids l =>
      refine ⟨⟨st.r2,
          putA st.kv "gallery:index"
            (.ids (l.filter (fun id => !(groupImages.contains id))))⟩,
        rfl, rfl, ?_, ?_⟩
      · intro key hk
        simp [lookupA_putA, hk]
      · unfold idxOf
        rw [hv]
        simp [lookupA_putA, idsValOf]

/-- C4: a delete-group request for an unknown label returns 404 and leaves
both stores unchanged; for a stored list the handler deletes every
member's record and blob, deletes the group key, and filters every member
out of the gallery index — so no image of the group can appear in a
subsequent gallery listing (the listing resolves records from the index,
and the members' ids are gone from it and their records deleted). -/
theorem claim_C4_delete_group (g : String) (st : Stores) :
    (lookupA st.kv ("group:" ++ g) = none →
      handleDeleteGroup g st = ({ status := 404 }, st)) ∧
    (∀ l : List String, lookupA st.kv ("group:" ++ g) = some (.ids l) →
      (∀ id ∈ l, shapeRcd (lookupA st.kv ("image:" ++ id)) = true) →
      shapeIds (lookupA st.kv "gallery:index") = true →
      (handleDeleteGroup g st).1.status = 200 ∧
      (∀ id ∈ l, lookupA (handleDeleteGroup g st).2.kv ("image:" ++ id) = none) ∧
      (∀ id ∈ l, ∀ m : ImageMeta,
        lookupA st.kv ("image:" ++ id) = some (.rcd m) →
        lookupA (handleDeleteGroup g st).2.r2 m.fileName = none) ∧
      lookupA (handleDeleteGroup g st).2.kv ("group:" ++ g) = none ∧
      idxOf (handleDeleteGroup g st).2
        = (idxOf st).filter (fun id => !(l.contains id)) ∧
      (∀ id ∈ l, id ∉ idxOf (handleDeleteGroup g st).2)) := by
  constructor
  · intro h
    unfold handleDeleteGroup
    rw [h]
  · intro l hv hshape hidx
    obtain ⟨st1, hloop, h1, h2, h3, h4, h5, h6⟩ := deleteGroupLoop_spec l st hshape
    set st2 : Stores := ⟨st1.r2, delA st1.kv ("group:" ++ g)⟩ with hst2
    have hkv2 : ∀ key, ¬ key = "group:" ++ g →
        lookupA st2.kv key = lookupA st1.kv key := by
      intro key hk
      simp [hst2, lookupA_delA, hk]
    have hidx2 : lookupA st2.kv "gallery:index"
        = lookupA st.kv "gallery:index" := by
      rw [hkv2 _ (fun h => groupKey_ne_indexKey _ h.symm)]
      exact h2 _ (fun id _ h => imageKey_ne_indexKey id h.symm)
    obtain ⟨st3, hstep, hr3, hp3, hix3⟩ :=
      deleteGroupIndexStep_spec l st2 (by rw [hidx2]; exact hidx)
    have hrun : handleDeleteGroup g st = ({ status := 200 }, st3) := by
      unfold handleDeleteGroup
      rw [hv]
      simp only [hloop, ← hst2, hstep]
    rw [hrun]
    have hidxOf2 : idxOf st2 = idxOf st := by
      unfold idxOf
      rw [hidx2]
    refine ⟨rfl, ?_, ?_, ?_, ?_, ?_⟩
    · intro id hid
      rw [hp3 _ (fun h => imageKey_ne_indexKey _ h),
        hkv2 _ (fun h => imageKey_ne_groupKey _ _ h)]
      exact h1 id hid
    · intro id hid m hm
      rw [hr3]
      show lookupA st1.r2 m.fileName = none
      exact h4 id hid m hm
    · rw [hp3 _ (fun h => groupKey_ne_indexKey _ h)]
      simp [hst2, lookupA_delA]
    · rw [hix3, hidxOf2]
    · intro id hid hmem
      rw [hix3, hidxOf2] at hmem
      rcases List.mem_filter.mp hmem with ⟨_, hcond⟩
      simp [List.contains, hid] at hcond

/-- Witness for C4 at a concrete two-image group. -/
theorem claim_C4_delete_group_witness :
    (handleDeleteGroup "H" ⟨[("fa", ⟨3, "t"⟩)],
        [("group:G", .ids ["a"]), ("gallery:index", .ids ["a"]),
         ("image:a", .rcd ⟨"a", "fa", "u", "G", 1, 3, "t"⟩)]⟩
      = ({ status := 404 },
         ⟨[("fa", ⟨3, "t"⟩)],
          [("group:G", .ids ["a"]), ("gallery:index", .ids ["a"]),
           ("image:a", .rcd ⟨"a", "fa", "u", "G", 1, 3, "t"⟩)]⟩)) ∧
    (handleDeleteGroup "G" ⟨[("fa", ⟨3, "t"⟩), ("fb", ⟨4, "t"⟩)],
        [("group:G", .ids ["a", "b"]), ("gallery:index", .ids ["a", "b", "c"]),
         ("image:a", .rcd ⟨"a", "fa", "u", "G", 1, 3, "t"⟩),
         ("image:b", .rcd ⟨"b", "fb", "u", "G", 2, 4, "t"⟩)]⟩).1.status = 200 ∧
    idxOf (handleDeleteGroup "G" ⟨[("fa", ⟨3, "t"⟩), ("fb", ⟨4, "t"⟩)],
        [("group:G", .ids ["a", "b"]), ("gallery:index", .ids ["a", "b", "c"]),
         ("image:a", .rcd ⟨"a", "fa", "u", "G", 1, 3, "t"⟩),
         ("image:b", .rcd ⟨"b", "fb", "u", "G", 2, 4, "t"⟩)]⟩).2
      = ["a", "b", "c"].filter (fun id => !(["a", "b"].contains id)) := by
  have h1 := (claim_C4_delete_group "H" ⟨[("fa", ⟨3, "t"⟩)],
    [("group:G", .ids ["a"]), ("gallery:index", .ids ["a"]),
     ("image:a", .rcd ⟨"a", "fa", "u", "G", 1, 3, "t"⟩)]⟩).1 (by decide)
  have h2 := (claim_C4_delete_group "G" ⟨[("fa", ⟨3, "t"⟩), ("fb", ⟨4, "t"⟩)],
    [("group:G", .ids ["a", "b"]), ("gallery:index", .ids ["a", "b", "c"]),
     ("image:a", .rcd ⟨"a", "fa", "u", "G", 1, 3, "t"⟩),
     ("image:b", .rcd ⟨"b", "fb", "u", "G", 2, 4, "t"⟩)]⟩).2
    ["a", "b"] (by decide) (by decide) (by decide)
  exact ⟨h1, h2.1, h2.2.2.2.2.1⟩

/-- The upload loop never touches the `gallery:index` key, whatever its
outcome. -/
theorem uploadLoop_index_pres (now : Nat) (rand : Nat → String)
    (group : String) :
    ∀ (es : List FormEntry) (i : Nat) (st : Stores),
    lookupA (uploadLoop now rand group es i st).2.kv "gallery:index"
      = lookupA st.kv "gallery:index" := by
  intro es
  induction es with
  | nil => intro i st; rfl
  | cons e rest ih =>
    intro i st
    cases e with
    | str s => exact ih (i + 1) st
    | file f =>
      have hpf := processFile_kv_pres now rand group i f st "gallery:index"
        (imageKey_ne_indexKey _ ∘ Eq.symm) (groupKey_ne_indexKey _ ∘ Eq.symm)
      rw [uploadLoop]
      cases hres : processFile now rand group i f st with
      | mk res st1 =>
        rw [hres] at hpf
        cases res with
        | error e0 => exact hpf
        | ok m =>
          have h2 := ih (i + 1) st1
          cases huL : uploadLoop now rand group rest (i + 1) st1 with
          | mk res1 st2 =>
            rw [huL] at h2
            cases res1 with
            | error e1 =>
              simp only [huL]
              exact h2.trans hpf
            | ok ms =>
              simp only [huL]
              exact h2.trans hpf

/-- The index-update fold keeps the index duplicate-free. -/
theorem nodup_foldl_pushUnique (ms : List ImageMeta) :
    ∀ acc : List String, acc.Nodup →
    (ms.foldl (fun acc img => if acc.contains img.id then acc
      else acc ++ [img.id]) acc).Nodup := by
  induction ms with
  | nil => intro acc h; simpa using h
  | cons m rest ih =>
    intro acc h
    simp only [List.foldl_cons]
    by_cases hc : acc.contains m.id
    · rw [if_pos hc]; exact ih acc h
    · rw [if_neg hc]
      apply ih
      have hm : m.id ∉ acc := by simpa [List.contains] using hc
      simp [List.nodup_append, h, hm]

/-- A successful group-cleanup step touches only the group key. -/
theorem removeFromGroup_ok_pres {k i : String} {st st' : Stores}
    (h : removeFromGroup k i st = .ok st') :
    ∀ key, ¬ key = k → lookupA st'.kv key = lookupA st.kv key := by
  cases hv : lookupA st.kv k with
  | none =>
    have hr : removeFromGroup k i st = .ok st := by
      unfold removeFromGroup
      rw [hv]
    rw [hr] at h
    cases h
    exact fun _ _ => rfl
  | some v =>
    cases v with
    | rcd m =>
      have hr : removeFromGroup k i st = .error "value is not an id array" := by
        unfold removeFromGroup
        rw [hv]
      rw [hr] at h
      cases h
    | ids l =>
      by_cases hl : 0 < (l.filter (fun id => !(id = i))).length
      · have hr : removeFromGroup k i st
            = .ok ⟨st.r2, putA st.kv k (.ids (l.filter (fun id => !(id = i))))⟩ := by
          unfold removeFromGroup
          rw [hv]
          simp [hl]
        rw [hr] at h
        cases h
        intro key hk
        simp [lookupA_putA, hk]
      · have hr : removeFromGroup k i st = .ok ⟨st.r2, delA st.kv k⟩ := by
          unfold removeFromGroup
          rw [hv]
          simp [hl]
        rw [hr] at h
        cases h
        intro key hk
        simp [lookupA_delA, hk]

/-- A successful index-cleanup step filters the id out of the index. -/
theorem removeFromIndex_ok_idx {i : String} {st st' : Stores}
    (h : removeFromIndex i st = .ok st') :
    idxOf st' = (idxOf st).filter (fun id => !(id = i)) := by
  unfold removeFromIndex at h
  cases hv : lookupA st.kv "gallery:index" with
  | none =>
    rw [hv] at h
    cases h
    unfold idxOf
    rw [hv]
    simp [idsValOf]
  | some v =>
    cases v with
    | rcd m => rw [hv] at h; cases h
    | ids l =>
      rw [hv] at h
      cases h
      unfold idxOf
      rw [hv]
      simp [lookupA_putA, idsValOf]

/-- The delete-group loop never touches the `gallery:index` key. -/
theorem deleteGroupLoop_index_pres :
    ∀ (l : List String) (st : Stores),
    lookupA (deleteGroupLoop l st).2.kv "gallery:index"
      = lookupA st.kv "gallery:index" := by
  intro l
  induction l with
  | nil => intro st; rfl
  | cons id0 rest ih =>
    intro st
    rw [deleteGroupLoop]
    cases hv : lookupA st.kv ("image:" ++ id0) with
    | none => exact ih st
    | some v =>
      cases v with
      | ids l0 => rfl
      | rcd m0 =>
        have h2 := ih ⟨delA st.r2 m0.fileName, delA st.kv ("image:" ++ id0)⟩
        have hne : ¬ "gallery:index" = "image:" ++ id0 :=
          fun hh => imageKey_ne_indexKey id0 hh.symm
        rw [h2]
        simp [lookupA_delA, hne]

/-- A successful batched index cleanup filters the group's ids out of the
index. -/
theorem deleteGroupIndexStep_ok_idx {gi : List String} {st st' : Stores}
    (h : deleteGroupIndexStep gi st = .ok st') :
    idxOf st' = (idxOf st).filter (fun id => !(gi.contains id)) := by
  unfold deleteGroupIndexStep at h
  cases hv : lookupA st.kv "gallery:index" with
  | none =>
    rw [hv] at h
    cases h
    unfold idxOf
    rw [hv]
    simp [idsValOf]
  | some v =>
    cases v with
    | rcd m => rw [hv] at h; cases h
    | ids l =>
      rw [hv] at h
      cases h
      unfold idxOf
      rw [hv]
      simp [lookupA_putA, idsValOf]

/-- C10: every mutating handler preserves duplicate-freedom of the
gallery index: the upload fold appends an id only when it is not already
present, and both delete handlers only filter ids out. -/
theorem claim_C10_index_nodup (now : Nat) (rand : Nat → String)
    (groupField : Option String) (entries : List FormEntry)
    (imageId g : String) (st : Stores) (h : (idxOf st).Nodup) :
    (idxOf (handleUpload now rand groupField entries st).2).Nodup ∧
    (idxOf (handleDeleteImage imageId st).2).Nodup ∧
    (idxOf (handleDeleteGroup g st).2).Nodup := by
  refine ⟨?_, ?_, ?_⟩
  · -- upload
    by_cases hlen : entries.length = 0
    · have hrun : handleUpload now rand groupField entries st
          = ({ status := 400 }, st) := by
        unfold handleUpload
        rw [if_pos hlen]
      rw [hrun]
      exact h
    · have hpre := uploadLoop_index_pres now rand (groupOf groupField)
        entries 0 st
      cases huL : uploadLoop now rand (groupOf groupField) entries 0 st with
      | mk res st1 =>
        rw [huL] at hpre
        have hpre1 : lookupA st1.kv "gallery:index"
            = lookupA st.kv "gallery:index" := hpre
        have hidx1 : idxOf st1 = idxOf st := by
          unfold idxOf
          rw [hpre1]
        cases res with
        | error e =>
          have hrun : handleUpload now rand groupField entries st
              = ({ status := 500 }, st1) := by
            unfold handleUpload
            rw [if_neg hlen]
            simp only [huL]
          rw [hrun]
          exact hidx1 ▸ h
        | ok ms =>
          cases hp : parseIdsOpt (lookupA st1.kv "gallery:index") with
          | error e =>
            have hrun : handleUpload now rand groupField entries st
                = ({ status := 500 }, st1) := by
              unfold handleUpload
              rw [if_neg hlen]
              simp only [huL, hp]
            rw [hrun]
            exact hidx1 ▸ h
          | ok index0 =>
            have hnd0 : index0.Nodup := by
              cases hvv : lookupA st1.kv "gallery:index" with
              | none =>
                rw [hvv] at hp
                have h0 : ([] : List String) = index0 := Except.ok.inj hp
                rw [← h0]
                exact List.nodup_nil
              | some v =>
                cases v with
                | rcd mm =>
                  rw [hvv] at hp
                  simp [parseIdsOpt] at hp
                | ids l =>
                  rw [hvv] at hp
                  have h0 : l = index0 := Except.ok.inj hp
                  rw [hvv] at hpre1
                  have hst : idxOf st = l := by
                    unfold idxOf
                    rw [← hpre1]
                    rfl
                  rw [← h0]
                  rw [hst] at h
                  exact h
            have hrun2 : (handleUpload now rand groupField entries st).2
                = ⟨st1.r2, putA st1.kv "gallery:index"
                    (.ids (ms.foldl (fun acc img =>
                      if acc.contains img.id then acc else acc ++ [img.id])
                      index0))⟩ := by
              unfold handleUpload
              rw [if_neg hlen]
              simp only [huL, hp]
              by_cases hms : ms.length = 0 <;> simp [hms]
            rw [hrun2]
            have : idxOf ⟨st1.r2, putA st1.kv "gallery:index"
                (.ids (ms.foldl (fun acc img =>
                  if acc.contains img.id then acc else acc ++ [img.id])
                  index0))⟩
                = ms.foldl (fun acc img =>
                    if acc.contains img.id then acc else acc ++ [img.id])
                  index0 := by
              unfold idxOf
              simp [lookupA_putA, idsValOf]
            rw [this]
            exact nodup_foldl_pushUnique ms index0 hnd0
  · -- delete-one
    cases hv : lookupA st.kv ("image:" ++ imageId) with
    | none =>
      have hrun : handleDeleteImage imageId st = ({ status := 404 }, st) := by
        unfold handleDeleteImage
        rw [hv]
      rw [hrun]
      exact h
    | some v =>
      cases v with
      | ids l =>
        have hrun : handleDeleteImage imageId st = ({ status := 500 }, st) := by
          unfold handleDeleteImage
          rw [hv]
        rw [hrun]
        exact h
      | rcd m =>
        set st2 : Stores :=
          ⟨delA st.r2 m.fileName, delA st.kv ("image:" ++ imageId)⟩ with hst2
        have hrun : handleDeleteImage imageId st
            = deleteImageCore imageId m st2 := by
          unfold handleDeleteImage
          rw [hv]
        rw [hrun]
        have hidx2 : idxOf st2 = idxOf st := by
          unfold idxOf
          have hne : ¬ "gallery:index" = "image:" ++ imageId :=
            fun hh => imageKey_ne_indexKey imageId hh.symm
          simp [hst2, lookupA_delA, hne]
        cases hrg : removeFromGroup ("group:" ++ m.group) imageId st2 with
        | error e =>
          have hrun2 : deleteImageCore imageId m st2 = ({ status := 500 }, st2) := by
            unfold deleteImageCore
            rw [hrg]
          rw [hrun2]
          exact hidx2 ▸ h
        | ok st3 =>
          have hp3 := removeFromGroup_ok_pres hrg "gallery:index"
            (fun hh => groupKey_ne_indexKey _ hh.symm)
          have hidx3 : idxOf st3 = idxOf st2 := by
            unfold idxOf
            rw [hp3]
          cases hri : removeFromIndex imageId st3 with
          | error e =>
            have hrun2 : deleteImageCore imageId m st2
                = ({ status := 500 }, st3) := by
              unfold deleteImageCore
              rw [hrg]
              simp only [hri]
            rw [hrun2]
            rw [show (({ status := 500 } : Response), st3).2 = st3 from rfl,
              hidx3, hidx2]
            exact h
          | ok st4 =>
            have hrun2 : deleteImageCore imageId m st2
                = ({ status := 200 }, st4) := by
              unfold deleteImageCore
              rw [hrg]
              simp only [hri]
            rw [hrun2]
            show (idxOf st4).Nodup
            rw [removeFromIndex_ok_idx hri, hidx3, hidx2]
            exact h.filter _
  · -- delete-group
    cases hv : lookupA st.kv ("group:" ++ g) with
    | none =>
      have hrun : handleDeleteGroup g st = ({ status := 404 }, st) := by
        unfold handleDeleteGroup
        rw [hv]
      rw [hrun]
      exact h
    | some v =>
      cases v with
      | rcd m =>
        have hrun : handleDeleteGroup g st = ({ status := 500 }, st) := by
          unfold handleDeleteGroup
          rw [hv]
        rw [hrun]
        exact h
      | ids l =>
        have hpre := deleteGroupLoop_index_pres l st
        cases hloop : deleteGroupLoop l st with
        | mk res st1 =>
          rw [hloop] at hpre
          have hpre1 : lookupA st1.kv "gallery:index"
              = lookupA st.kv "gallery:index" := hpre
          have hidx1 : idxOf st1 = idxOf st := by
            unfold idxOf
            rw [hpre1]
          cases res with
          | error e =>
            have hrun : handleDeleteGroup g st = ({ status := 500 }, st1) := by
              unfold handleDeleteGroup
              rw [hv]
              simp only [hloop]
            rw [hrun]
            exact hidx1 ▸ h
          | ok u =>
            set st2 : Stores := ⟨st1.r2, delA st1.kv ("group:" ++ g)⟩ with hst2
            have hidx2 : idxOf st2 = idxOf st1 := by
              unfold idxOf
              have hne : ¬ "gallery:index" = "group:" ++ g :=
                fun hh => groupKey_ne_indexKey _ hh.symm
              simp [hst2, lookupA_delA, hne]
            cases hstep : deleteGroupIndexStep l st2 with
            | error e =>
              have hrun : handleDeleteGroup g st = ({ status := 500 }, st2) := by
                unfold handleDeleteGroup
                rw [hv]
                simp only [hloop, ← hst2, hstep]
              rw [hrun]
              show (idxOf st2).Nodup
              rw [hidx2, hidx1]
              exact h
            | ok st3 =>
              have hrun : handleDeleteGroup g st = ({ status := 200 }, st3) := by
                unfold handleDeleteGroup
                rw [hv]
                simp only [hloop, ← hst2, hstep]
              rw [hrun]
              show (idxOf st3).Nodup
              rw [deleteGroupIndexStep_ok_idx hstep, hidx2, hidx1]
              exact h.filter _

/-- Witness for C10 at a concrete duplicate-free store. -/
theorem claim_C10_index_nodup_witness :
    (idxOf (handleUpload 5 (fun _ => "r") (some "G")
        [FormEntry.file ⟨"a.png", "image/png", 2⟩]
        ⟨[], [("gallery:index", .ids ["x", "y"])]⟩).2).Nodup ∧
    (idxOf (handleDeleteImage "x"
        ⟨[], [("gallery:index", .ids ["x", "y"])]⟩).2).Nodup ∧
    (idxOf (handleDeleteGroup "G"
        ⟨[], [("gallery:index", .ids ["x", "y"])]⟩).2).Nodup :=
  claim_C10_index_nodup 5 (fun _ => "r") (some "G")
    [FormEntry.file ⟨"a.png", "image/png", 2⟩] "x" "G"
    ⟨[], [("gallery:index", .ids ["x", "y"])]⟩ (by decide)

end SSDA
